import Mathlib

/-!
Verification of the PumpFun / PumpPortal trading bot core against its
natural-language specification.

The development shallowly embeds the TypeScript sources:
  * `src/config.ts`               — configuration record and defaults
  * `src/core/portfolio.ts`       — position ledger (`PortfolioManager`)
  * `src/core/riskManager.ts`     — risk gate (`RiskManager`)
  * `src/strategies/*`            — sniper, momentum and position-management
                                    strategies
  * `src/core/strategyManager.ts` — strategy pipeline

Numbers (SOL amounts, prices, percentages) are embedded as rationals `ℚ`;
timestamps (millisecond epoch values produced by `Date.now()`) as integers
`ℤ`.  JavaScript `Map`s are embedded as association lists that preserve
insertion order, matching `Map` iteration semantics.  Statuses and actions
are kept as the literal strings the source uses.  Asynchronous wallet
queries (balance, token holdings) are passed in as explicit arguments.
-/

/-! ## Configuration (src/config.ts) -/

/-- The `trading` section of `BotConfig` (src/config.ts). -/
structure TradingConfig where
  defaultSlippage : ℚ
  defaultPriorityFee : ℚ
  maxTradeAmountSol : ℚ
  minTradeAmountSol : ℚ
  stopLossPercentage : ℚ
  takeProfitPercentage : ℚ
deriving DecidableEq

/-- The `riskManagement` section of `BotConfig` (src/config.ts). -/
structure RiskManagementConfig where
  maxDailyTradingVolume : ℚ
  maxPositionSizePercentage : ℚ
deriving DecidableEq

/-- The parts of `BotConfig` the core logic reads (src/config.ts). -/
structure BotConfig where
  trading : TradingConfig
  riskManagement : RiskManagementConfig
deriving DecidableEq

/-- The default configuration produced by `loadConfig` when no environment
variables override the defaults (src/config.ts). -/
def defaultConfig : BotConfig :=
  { trading :=
    { defaultSlippage := 1
      defaultPriorityFee := 1/100000
      maxTradeAmountSol := 1/2
      minTradeAmountSol := 1/100
      stopLossPercentage := 10
      takeProfitPercentage := 20 }
    riskManagement :=
    { maxDailyTradingVolume := 5
      maxPositionSizePercentage := 5 } }

/-! ## Position ledger data model (src/types/index.ts, src/core/portfolio.ts) -/

/-- The `Position` record.  `status` is the literal string `"open"` or
`"closed"` exactly as in the source; `exitPrice` and `pnl` are the optional
fields set when a position is fully closed. -/
structure Position where
  mint : String
  tokenName : String
  tokenSymbol : String
  entryPrice : ℚ
  amount : ℚ
  timestamp : ℤ
  stopLoss : ℚ
  takeProfit : ℚ
  status : String
  exitPrice : Option ℚ := none
  pnl : Option ℚ := none
deriving DecidableEq

/-- The `Portfolio` record kept by `PortfolioManager`. -/
structure Portfolio where
  positions : List Position
  totalInvestedSol : ℚ
  realizedPnl : ℚ
  unrealizedPnl : ℚ
deriving DecidableEq

/-- The default portfolio returned by `loadPortfolio` when no snapshot
exists on disk (src/core/portfolio.ts). -/
def emptyPortfolio : Portfolio :=
  { positions := [], totalInvestedSol := 0, realizedPnl := 0, unrealizedPnl := 0 }

/-- Whether a position matches `PortfolioManager.getOpenPositionForToken`'s
filter predicate: same mint and status `"open"`. -/
def isOpenFor (mint : String) (pos : Position) : Bool :=
  decide (pos.mint = mint) && decide (pos.status = "open")

/-- `PortfolioManager.getOpenPositions`. -/
def getOpenPositions (p : Portfolio) : List Position :=
  p.positions.filter (fun pos => decide (pos.status = "open"))

/-- `PortfolioManager.getOpenPositionForToken`: the first position in
insertion order whose mint matches and whose status is `"open"`, or `none`
(the source filters and takes index 0). -/
def getOpenPositionForToken (p : Portfolio) (mint : String) : Option Position :=
  (p.positions.filter (isOpenFor mint)).head?

/-- Number of open positions for a given mint; the quantity bounded by the
one-open-position-per-mint invariant. -/
def openCount (p : Portfolio) (mint : String) : ℕ :=
  (p.positions.filter (isOpenFor mint)).length

/-- Invariant: at most one open position per token identity. -/
def AtMostOneOpen (p : Portfolio) : Prop :=
  ∀ mint, openCount p mint ≤ 1

/-- The in-place update of the existing open position performed by the
dollar-cost-averaging branch of `PortfolioManager.addPosition`:
new quantity, cost-weighted entry price, and stop-loss / take-profit
recomputed from the new entry price and the supplied percentages. -/
def mergePosition (pos : Position)
    (amount amountSol stopLossPercentage takeProfitPercentage : ℚ) : Position :=
  let totalTokens := pos.amount + amount
  let totalCost := pos.amount * pos.entryPrice + amountSol
  let newEntry := totalCost / totalTokens
  { pos with
    entryPrice := newEntry
    amount := totalTokens
    stopLoss := newEntry * (1 - stopLossPercentage / 100)
    takeProfit := newEntry * (1 + takeProfitPercentage / 100) }

/-- Replace the first open position for `mint` by `f` applied to it, leaving
every other element unchanged.  This models the in-place mutation of the
object returned by `getOpenPositionForToken` in the source. -/
def updateFirstOpen (mint : String) (f : Position → Position) :
    List Position → List Position
  | [] => []
  | pos :: rest =>
    if isOpenFor mint pos then f pos :: rest
    else pos :: updateFirstOpen mint f rest

/-- `PortfolioManager.addPosition`.  If an open position for the mint exists
it is merged in place (and `totalInvestedSol` is not touched — that line only
appears in the new-position branch of the source); otherwise a fresh open
position is appended and `totalInvestedSol` is incremented by `amountSol`.
Returns the created or updated position together with the new portfolio. -/
def addPosition (p : Portfolio) (mint tokenName tokenSymbol : String)
    (entryPrice amount amountSol stopLossPercentage takeProfitPercentage : ℚ)
    (now : ℤ) : Position × Portfolio :=
  match getOpenPositionForToken p mint with
  | some existingPosition =>
    let merged := mergePosition existingPosition amount amountSol
      stopLossPercentage takeProfitPercentage
    let doMerge := fun pos => mergePosition pos amount amountSol
      stopLossPercentage takeProfitPercentage
    (merged, { p with positions := updateFirstOpen mint doMerge p.positions })
  | none =>
    let newPosition : Position :=
      { mint := mint
        tokenName := tokenName
        tokenSymbol := tokenSymbol
        entryPrice := entryPrice
        amount := amount
        timestamp := now
        stopLoss := entryPrice * (1 - stopLossPercentage / 100)
        takeProfit := entryPrice * (1 + takeProfitPercentage / 100)
        status := "open" }
    (newPosition,
      { p with positions := p.positions ++ [newPosition]
               totalInvestedSol := p.totalInvestedSol + amountSol })

/-- The field updates of the fully-closed branch of
`PortfolioManager.closePosition`. -/
def markClosed (exitPrice pnl : ℚ) (pos : Position) : Position :=
  { pos with status := "closed", exitPrice := some exitPrice, pnl := some pnl }

/-- `PortfolioManager.closePosition`.  Returns `none` and the unchanged
portfolio when no open position exists; otherwise books the realized delta
and either fully closes or partially reduces the position. -/
def closePosition (p : Portfolio) (mint : String)
    (exitPrice amountSold soldPercentage : ℚ) : Option Position × Portfolio :=
  match getOpenPositionForToken p mint with
  | none => (none, p)
  | some position =>
    let entryValueSol := position.entryPrice * amountSold
    let exitValueSol := exitPrice * amountSold
    let pnl := exitValueSol - entryValueSol
    if soldPercentage ≥ 100 ∨ amountSold ≥ position.amount then
      (some (markClosed exitPrice pnl position),
        { p with
          positions := updateFirstOpen mint (markClosed exitPrice pnl) p.positions
          realizedPnl := p.realizedPnl + pnl })
    else
      (some { position with amount := position.amount - amountSold },
        { p with
          positions := updateFirstOpen mint
            (fun pos => { pos with amount := pos.amount - amountSold }) p.positions
          realizedPnl := p.realizedPnl + pnl })

/-- `PortfolioManager.updateUnrealizedPnl`: recomputes unrealized P&L from
scratch over the open positions, skipping tokens whose price is unknown or
zero (the source guards with JavaScript truthiness `if (currentPrice)`). -/
def updateUnrealizedPnl (p : Portfolio) (tokenPrices : List (String × ℚ)) :
    Portfolio :=
  let total := (getOpenPositions p).foldl
    (fun acc pos =>
      match tokenPrices.lookup pos.mint with
      | some currentPrice =>
        if currentPrice = 0 then acc
        else acc + (currentPrice * pos.amount - pos.entryPrice * pos.amount)
      | none => acc) 0
  { p with unrealizedPnl := total }

/-- `PortfolioManager.getTotalValue`. -/
def getTotalValue (p : Portfolio) : ℚ :=
  p.totalInvestedSol + p.unrealizedPnl

/-! ## Risk manager (src/core/riskManager.ts) -/

/-- One UTC day in milliseconds. -/
def msPerDay : ℤ := 86400000

/-- The mutable state of `RiskManager`: the daily volume counter and the
timestamp of the next scheduled reset. -/
structure RiskState where
  dailyTradingVolume : ℚ
  dailyResetTimestamp : ℤ
deriving DecidableEq

/-- The timestamp computed by `resetDailyVolume`'s date arithmetic in a UTC
environment: take the current UTC day's midnight (`setUTCHours(0,0,0,0)`)
and add one day, i.e. the first multiple of `msPerDay` strictly after
`now`. -/
def nextUtcMidnight (now : ℤ) : ℤ :=
  now - now.emod msPerDay + msPerDay

/-- `RiskManager.resetDailyVolume`: zero the counter and schedule the next
midnight-UTC reset. -/
def resetDailyVolume (now : ℤ) : RiskState :=
  { dailyTradingVolume := 0, dailyResetTimestamp := nextUtcMidnight now }

/-- `RiskManager.checkDailyReset`: lazily reset when the scheduled reset
time has been reached. -/
def checkDailyReset (s : RiskState) (now : ℤ) : RiskState :=
  if now ≥ s.dailyResetTimestamp then resetDailyVolume now else s

/-- `RiskManager.trackTradeVolume`. -/
def trackTradeVolume (s : RiskState) (now : ℤ) (solAmount : ℚ) : RiskState :=
  let s1 := checkDailyReset s now
  { s1 with dailyTradingVolume := s1.dailyTradingVolume + solAmount }

/-- `RiskManager.getDailyTradingVolume`: returns the counter after the lazy
reset, together with the (possibly reset) state. -/
def getDailyTradingVolume (s : RiskState) (now : ℤ) : ℚ × RiskState :=
  let s1 := checkDailyReset s now
  (s1.dailyTradingVolume, s1)

/-- The distinct rejection reasons produced by `RiskManager.checkTrade`,
one per interpolated message template in the source. -/
inductive RiskReason
  | insufficientBalance
  | dailyVolumeExceeded
  | belowMinTradeAmount
  | aboveMaxTradeAmount
  | exceedsMaxPositionSize
  | tokenNotInWallet
deriving DecidableEq

/-- `RiskCheckResult` (src/types/index.ts): allowed flag plus an optional
human-readable reason, represented by which message template produced it. -/
structure RiskCheckResult where
  allowed : Bool
  reason : Option RiskReason := none
deriving DecidableEq

/-- The fixed gas-fee buffer of `checkTrade` and `getOptimalTradeSize`
(`0.01` SOL). -/
def gasFeeBuffer : ℚ := 1/100

/-- `RiskManager.checkTrade`.  `balance` and `hasToken` stand for the
asynchronous wallet queries; the portfolio supplies the total value.  The
lazy daily reset runs first; the checks then run in source order with the
first failure winning. -/
def checkTrade (cfg : BotConfig) (p : Portfolio) (s : RiskState) (now : ℤ)
    (balance : ℚ) (hasToken : Bool) (action : String) (solAmount : ℚ) :
    RiskCheckResult × RiskState :=
  let s1 := checkDailyReset s now
  if action = "buy" then
    if balance < solAmount + gasFeeBuffer then
      ({ allowed := false, reason := some .insufficientBalance }, s1)
    else if s1.dailyTradingVolume + solAmount > cfg.riskManagement.maxDailyTradingVolume then
      ({ allowed := false, reason := some .dailyVolumeExceeded }, s1)
    else if solAmount < cfg.trading.minTradeAmountSol then
      ({ allowed := false, reason := some .belowMinTradeAmount }, s1)
    else if solAmount > cfg.trading.maxTradeAmountSol then
      ({ allowed := false, reason := some .aboveMaxTradeAmount }, s1)
    else
      let maxPositionSize := getTotalValue p * (cfg.riskManagement.maxPositionSizePercentage / 100)
      if solAmount > maxPositionSize then
        ({ allowed := false, reason := some .exceedsMaxPositionSize }, s1)
      else ({ allowed := true }, s1)
  else if action = "sell" then
    if !hasToken then
      ({ allowed := false, reason := some .tokenNotInWallet }, s1)
    else ({ allowed := true }, s1)
  else ({ allowed := true }, s1)

/-- `RiskManager.getOptimalTradeSize`.  Clamps the post-buffer balance at
zero, takes the minimum of the four constraints, returns zero when that
minimum is below the configured minimum trade amount, and halves the size
when the token already has an open position. -/
def getOptimalTradeSize (cfg : BotConfig) (p : Portfolio) (s : RiskState)
    (now : ℤ) (balance : ℚ) (mint : String) : ℚ × RiskState :=
  let availableBalance := max 0 (balance - gasFeeBuffer)
  let maxPositionSize := getTotalValue p * (cfg.riskManagement.maxPositionSizePercentage / 100)
  let volRes := getDailyTradingVolume s now
  let remainingDailyAllowance := cfg.riskManagement.maxDailyTradingVolume - volRes.1
  let optimalSize :=
    min (min (min availableBalance maxPositionSize) remainingDailyAllowance)
      cfg.trading.maxTradeAmountSol
  if optimalSize < cfg.trading.minTradeAmountSol then (0, volRes.2)
  else
    match getOpenPositionForToken p mint with
    | some _ => (optimalSize * (1/2), volRes.2)
    | none => (optimalSize, volRes.2)

/-! ## Market events (src/types/index.ts) -/

/-- Payload of a `newToken` WebSocket event. -/
structure NewTokenData where
  mint : String
  name : String
  symbol : String
  createdAt : ℤ
  creatorAddress : String
deriving DecidableEq

/-- Payload of a `tokenTrade` WebSocket event; `symbol` is optional in the
source (`symbol?`), with `none` for absent. -/
structure TokenTradeData where
  mint : String
  action : String
  price : ℚ
  amountSol : ℚ
  trader : String
  timestamp : ℤ
  symbol : Option String := none
deriving DecidableEq

/-- A WebSocket event as dispatched to the strategies; event types other
than the two known ones are represented by their type tag. -/
inductive WebSocketEvent
  | newToken (data : NewTokenData)
  | tokenTrade (data : TokenTradeData)
  | other (typeTag : String)
deriving DecidableEq

/-- The `amount` field of a `TradeRequest`: either an absolute SOL quantity
(a number in the source) or a percentage-of-holdings directive (a string
such as `'100%'`). -/
inductive TradeAmount
  | sol (amount : ℚ)
  | percentOfHoldings (percent : ℚ)
deriving DecidableEq

/-- `TradeRequest` (src/types/index.ts). -/
structure TradeRequest where
  action : String
  mint : String
  amount : TradeAmount
  denominatedInSol : Bool
  slippage : ℚ
  priorityFee : ℚ
  pool : String
  skipPreflight : Bool
deriving DecidableEq

/-! ## Association-list maps

JavaScript `Map`s preserve insertion order: `set` on a fresh key appends,
`set` on an existing key updates in place, and iteration follows insertion
order.  These helpers embed exactly that. -/

/-- Lookup in an insertion-ordered map. -/
def lookupA {α : Type} : List (String × α) → String → Option α
  | [], _ => none
  | (k, v) :: rest, key => if k = key then some v else lookupA rest key

/-- `Map.set`: update in place when the key exists, append otherwise. -/
def setA {α : Type} : List (String × α) → String → α → List (String × α)
  | [], key, v => [(key, v)]
  | (k, w) :: rest, key, v =>
    if k = key then (key, v) :: rest else (k, w) :: setA rest key v

/-! ## Momentum strategy (src/strategies/momentumStrategy.ts) -/

/-- One entry of a token's trade history (`TokenTrade` interface in the
strategy file). -/
structure MomTrade where
  action : String
  price : ℚ
  amountSol : ℚ
  trader : String
  timestamp : ℤ
deriving DecidableEq

/-- Per-token momentum data (`TokenData` interface): bounded trade history
(newest first), timestamp of the last accepted buy, display symbol. -/
structure TokenData where
  trades : List MomTrade
  lastBuyAttempt : ℤ
  symbol : String
deriving DecidableEq

/-- The configurable parameters of `MomentumStrategy` (its private fields),
with their constructor defaults. -/
structure MomentumParams where
  minTradeCount : ℕ := 5
  timeWindowMs : ℤ := 300000
  minVolumeThreshold : ℚ := 1/2
  priceIncreaseThreshold : ℚ := 5
  cooldownPeriodMs : ℤ := 600000
  defaultTradeAmount : ℚ := 1/10
deriving DecidableEq

/-- The mutable state of `MomentumStrategy`: the per-token data map and the
wall-clock time of the last periodic sweep.  The sweep cadence
(`cleanupIntervalMs`) is a fixed 5 minutes in the source. -/
structure MomentumState where
  tokenData : List (String × TokenData)
  lastCleanupTime : ℤ
deriving DecidableEq

/-- The fixed sweep cadence of `MomentumStrategy.cleanupOldData` (5 min). -/
def cleanupIntervalMs : ℤ := 300000

/-- Stable insertion into a list already sorted by timestamp descending:
the new element goes before the first element with a strictly smaller
timestamp. -/
def insertByTimestampDesc (t : MomTrade) : List MomTrade → List MomTrade
  | [] => [t]
  | u :: rest =>
    if u.timestamp > t.timestamp then u :: insertByTimestampDesc t rest
    else t :: u :: rest

/-- Stable sort by timestamp descending, modelling
`trades.sort((a, b) => b.timestamp - a.timestamp)` (JavaScript sort is
stable). -/
def sortByTimestampDesc : List MomTrade → List MomTrade
  | [] => []
  | t :: rest => insertByTimestampDesc t (sortByTimestampDesc rest)

/-- `MomentumStrategy.updateTokenData`: create the entry lazily, push the
trade, re-sort newest-first, trim to the 100-entry cap, and update the
display symbol when the event carries a truthy one. -/
def updateTokenData (s : MomentumState) (d : TokenTradeData) : MomentumState :=
  let data :=
    match lookupA s.tokenData d.mint with
    | some existing => existing
    | none => { trades := [], lastBuyAttempt := 0, symbol := "" }
  let trade : MomTrade :=
    { action := d.action, price := d.price, amountSol := d.amountSol
      trader := d.trader, timestamp := d.timestamp }
  let trades := sortByTimestampDesc (data.trades ++ [trade])
  let trades := if trades.length > 100 then trades.take 100 else trades
  let symbol :=
    match d.symbol with
    | some sy => if sy = "" then data.symbol else sy
    | none => data.symbol
  let newMap := setA s.tokenData d.mint { data with trades := trades, symbol := symbol }
  { s with tokenData := newMap }

/-- `MomentumStrategy.cleanupOldData`: at most every 5 minutes, drop every
token all of whose trades predate (analysis window + 1 hour). -/
def cleanupOldData (s : MomentumState) (prm : MomentumParams) (now : ℤ) :
    MomentumState :=
  if now - s.lastCleanupTime < cleanupIntervalMs then s
  else
    let cutoffTime := now - prm.timeWindowMs - 3600000
    { lastCleanupTime := now
      tokenData := s.tokenData.filter
        (fun kv => kv.2.trades.any (fun t => t.timestamp > cutoffTime)) }

/-- `MomentumStrategy.checkMomentum`: cooldown gate, then the trade-count,
volume and price-increase thresholds over the trades inside the analysis
window; on acceptance the cooldown timestamp is stamped into the state
before returning.  The source reads the newest and oldest in-window prices
by direct indexing, which is only reached when the window is nonempty
(`minTradeCount ≥ 1`); the empty-window corner returns `false` here. -/
def checkMomentum (s : MomentumState) (prm : MomentumParams) (mint : String)
    (now : ℤ) : Bool × MomentumState :=
  match lookupA s.tokenData mint with
  | none => (false, s)
  | some data =>
    if now - data.lastBuyAttempt < prm.cooldownPeriodMs then (false, s)
    else
      let recentTrades := data.trades.filter
        (fun t => now - t.timestamp < prm.timeWindowMs)
      if recentTrades.length < prm.minTradeCount then (false, s)
      else
        let totalVolume := recentTrades.foldl (fun sum t => sum + t.amountSol) 0
        if totalVolume < prm.minVolumeThreshold then (false, s)
        else
          match recentTrades.getLast?, recentTrades.head? with
          | some oldest, some newest =>
            let priceIncrease := ((newest.price - oldest.price) / oldest.price) * 100
            if priceIncrease < prm.priceIncreaseThreshold then (false, s)
            else
              let newMap := setA s.tokenData mint { data with lastBuyAttempt := now }
              (true, { s with tokenData := newMap })
          | _, _ => (false, s)

/-- `MomentumStrategy.shouldTrade`: ingest the trade into the token's
window, run the periodic sweep, then evaluate momentum. -/
def momentumShouldTrade (prm : MomentumParams) (isEnabled : Bool)
    (s : MomentumState) (ev : WebSocketEvent) (now : ℤ) : Bool × MomentumState :=
  if !isEnabled then (false, s)
  else
    match ev with
    | .tokenTrade d =>
      let s1 := updateTokenData s d
      let s2 := cleanupOldData s1 prm now
      checkMomentum s2 prm d.mint now
    | _ => (false, s)

/-- Sequential processing of a list of (event, arrival time) pairs by the
momentum strategy, recording each call's result and post-state. -/
def momentumRun (prm : MomentumParams) :
    MomentumState → List (WebSocketEvent × ℤ) → List (Bool × MomentumState)
  | _, [] => []
  | s, (ev, now) :: rest =>
    let step := momentumShouldTrade prm true s ev now
    step :: momentumRun prm step.2 rest

/-- The mint a trade event carries, if the event is a trade event. -/
def tradeMint : WebSocketEvent → Option String
  | .tokenTrade d => some d.mint
  | _ => none

/-! ## Sniper strategy (src/strategies/sniperStrategy.ts) -/

/-- Character-level lowercasing, modelling `String.prototype.toLowerCase`
on the (ASCII-oriented) token names and symbols the strategy compares. -/
def lowerChars (s : String) : List Char :=
  s.data.map Char.toLower

/-- Whether `pat` occurs as a contiguous run inside `text`, modelling
`String.prototype.includes`. -/
def charsContain (text pat : List Char) : Bool :=
  (List.range (text.length + 1)).any
    (fun i => decide ((text.drop i).take pat.length = pat))

/-- The configurable parameters of `SniperStrategy` (its private fields),
with their constructor defaults (`minTradeAmount` mirrors the configured
minimum and is unused by `shouldTrade`). -/
structure SniperParams where
  maxAgeMs : ℤ := 30000
  blockedCreators : List String := []
  blockedPhrases : List String := []
  defaultTradeAmount : ℚ := 1/10
deriving DecidableEq

/-- The mutable state of `SniperStrategy`: the set of already-processed
mints, embedded as a list without duplicates being relevant. -/
structure SniperState where
  processed : List String
deriving DecidableEq

/-- `SniperStrategy.shouldTrade`: enabled / event-type gates, then the
already-processed, age, blocked-creator and blocked-phrase checks; on
acceptance the mint is added to the processed set before returning. -/
def sniperShouldTrade (prm : SniperParams) (isEnabled : Bool)
    (st : SniperState) (ev : WebSocketEvent) (now : ℤ) : Bool × SniperState :=
  if !isEnabled then (false, st)
  else
    match ev with
    | .newToken d =>
      if d.mint ∈ st.processed then (false, st)
      else if now - d.createdAt > prm.maxAgeMs then (false, st)
      else if d.creatorAddress ∈ prm.blockedCreators then (false, st)
      else
        let tokenText := lowerChars d.name ++ [' '] ++ lowerChars d.symbol
        if prm.blockedPhrases.any (fun phrase => charsContain tokenText (lowerChars phrase)) then
          (false, st)
        else (true, { processed := st.processed ++ [d.mint] })
    | _ => (false, st)

/-- The mint a `newToken` event carries, if the event is one. -/
def newTokenMint : WebSocketEvent → Option String
  | .newToken d => some d.mint
  | _ => none

/-- How many calls accept a `newToken` event for mint `m` when the enabled
sniper strategy processes a sequence of (event, arrival time) pairs from
state `st`, threading the state from call to call: the number of proposals
the strategy can emit for that mint across the run. -/
def sniperAcceptCount (prm : SniperParams) : SniperState →
    List (WebSocketEvent × ℤ) → String → ℕ
  | _, [], _ => 0
  | st, (ev, now) :: rest, m =>
    let step := sniperShouldTrade prm true st ev now
    (if step.1 = true ∧ newTokenMint ev = some m then 1 else 0)
      + sniperAcceptCount prm step.2 rest m

/-! ## Position-management (exit) strategy
(src/strategies/positionManagementStrategy.ts) -/

/-- The mutable state of `PositionManagementStrategy`: latest observed
price per token, last processing time per token, and the configurable
per-token rate-limit interval (default 10 s). -/
structure PositionMgmtState where
  currentPrices : List (String × ℚ)
  lastProcessedTime : List (String × ℤ)
  minProcessingIntervalMs : ℤ := 10000
deriving DecidableEq

/-- `PositionManagementStrategy.shouldProcessToken`: per-token rate
limiter; a missing entry reads as 0 (`|| 0` in the source), and passing the
gate stamps the current time. -/
def shouldProcessToken (st : PositionMgmtState) (mint : String) (now : ℤ) :
    Bool × PositionMgmtState :=
  let lastProcessed := (lookupA st.lastProcessedTime mint).getD 0
  if now - lastProcessed < st.minProcessingIntervalMs then (false, st)
  else (true, { st with lastProcessedTime := setA st.lastProcessedTime mint now })

/-- `PositionManagementStrategy.shouldExitPosition`: open status, then the
stop-loss (`price ≤ stopLoss`) and take-profit (`price ≥ takeProfit`)
threshold crossings. -/
def shouldExitPosition (position : Position) (currentPrice : ℚ) : Bool :=
  if position.status ≠ "open" then false
  else if currentPrice ≤ position.stopLoss then true
  else if currentPrice ≥ position.takeProfit then true
  else false

/-- `PositionManagementStrategy.shouldTrade`: enabled / event-type gates,
record the latest price, require an open position, pass the per-token rate
limiter (which stamps), then the threshold test. -/
def pmShouldTrade (isEnabled : Bool) (st : PositionMgmtState) (p : Portfolio)
    (ev : WebSocketEvent) (now : ℤ) : Bool × PositionMgmtState :=
  if !isEnabled then (false, st)
  else
    match ev with
    | .tokenTrade d =>
      let st1 := { st with currentPrices := setA st.currentPrices d.mint d.price }
      match getOpenPositionForToken p d.mint with
      | none => (false, st1)
      | some position =>
        let gate := shouldProcessToken st1 d.mint now
        if !gate.1 then (false, gate.2)
        else (shouldExitPosition position d.price, gate.2)
    | _ => (false, st)

/-- `PositionManagementStrategy.getTrade`: requires a trade event and an
open position, performs the sell risk check (`checkTrade('sell', mint, 0)`,
which only consults token holdings), and builds the sell-100% proposal.
`balance`/`hasToken` stand for the wallet queries, `rs`/`now` for the risk
manager state. -/
def pmGetTrade (cfg : BotConfig) (p : Portfolio) (rs : RiskState) (now : ℤ)
    (balance : ℚ) (hasToken : Bool) (ev : WebSocketEvent) : Option TradeRequest :=
  match ev with
  | .tokenTrade d =>
    match getOpenPositionForToken p d.mint with
    | none => none
    | some _ =>
      let riskCheck := (checkTrade cfg p rs now balance hasToken "sell" 0).1
      if !riskCheck.allowed then none
      else
        some { action := "sell"
               mint := d.mint
               amount := .percentOfHoldings 100
               denominatedInSol := false
               slippage := cfg.trading.defaultSlippage
               priorityFee := cfg.trading.defaultPriorityFee
               pool := "pump"
               skipPreflight := false }
  | _ => none

/-! ## Strategy pipeline (src/core/strategyManager.ts)

For the pipeline's control-flow contract a strategy is embedded by its
observable behaviour on the event being dispatched: whether it is enabled,
what `shouldTrade` does (`none` = the call throws, `some b` = it returns
`b`), and what `getTrade` does (`none` = the call throws, `some r` = it
resolves with `r`, where `r = none` is a null proposal). -/

/-- Behavioural embedding of a registered `TradingStrategy` for one event
dispatch. -/
structure StrategyBehavior where
  isEnabled : Bool
  shouldTrade : WebSocketEvent → Option Bool
  getTrade : WebSocketEvent → Option (Option TradeRequest)

/-- The loop body of `StrategyManager.processEvent` over the enabled
strategies: first `shouldTrade`; on `true`, `getTrade`; a non-null proposal
returns immediately with its strategy; exceptions from either call are
caught and treated as abstention. -/
def processEventGo (ev : WebSocketEvent) :
    List StrategyBehavior → Option (StrategyBehavior × TradeRequest)
  | [] => none
  | s :: rest =>
    match s.shouldTrade ev with
    | none => processEventGo ev rest
    | some false => processEventGo ev rest
    | some true =>
      match s.getTrade ev with
      | none => processEventGo ev rest
      | some none => processEventGo ev rest
      | some (some tradeRequest) => some (s, tradeRequest)

/-- `StrategyManager.processEvent`: filter to the enabled strategies in
registration order, then run the loop. -/
def processEvent (strategies : List StrategyBehavior) (ev : WebSocketEvent) :
    Option (StrategyBehavior × TradeRequest) :=
  processEventGo ev (strategies.filter (fun s => s.isEnabled))

/-- Whether a single strategy accepts the event on its own: `shouldTrade`
returns `true` and `getTrade` yields a proposal, with exceptions counting
as abstention.  Used to state the pipeline contract. -/
def accepts (s : StrategyBehavior) (ev : WebSocketEvent) : Option TradeRequest :=
  match s.shouldTrade ev with
  | some true =>
    match s.getTrade ev with
    | some (some tradeRequest) => some tradeRequest
    | _ => none
  | _ => none

/-! ## Ledger lemmas -/

/-- Matching `isOpenFor` only depends on the mint and status fields. -/
lemma isOpenFor_congr {pos pos' : Position} (hm : pos'.mint = pos.mint)
    (hs : pos'.status = pos.status) (k : String) :
    isOpenFor k pos' = isOpenFor k pos := by
  simp [isOpenFor, hm, hs]

lemma mergePosition_mint (pos : Position) (a b c d : ℚ) :
    (mergePosition pos a b c d).mint = pos.mint := rfl

lemma mergePosition_status (pos : Position) (a b c d : ℚ) :
    (mergePosition pos a b c d).status = pos.status := rfl

lemma markClosed_mint (e q : ℚ) (pos : Position) :
    (markClosed e q pos).mint = pos.mint := rfl

lemma markClosed_status (e q : ℚ) (pos : Position) :
    (markClosed e q pos).status = "closed" := rfl

lemma isOpenFor_markClosed (k : String) (e q : ℚ) (pos : Position) :
    isOpenFor k (markClosed e q pos) = false := by
  simp [isOpenFor, markClosed]

/-- Replacing the first open position for `m` with an update that preserves
mint and status keeps every mint's open-position filter length unchanged. -/
lemma filter_updateFirstOpen_length (m k : String) (f : Position → Position)
    (hf : ∀ pos, isOpenFor k (f pos) = isOpenFor k pos) :
    ∀ l : List Position,
      ((updateFirstOpen m f l).filter (isOpenFor k)).length
        = (l.filter (isOpenFor k)).length := by
  intro l
  induction l with
  | nil => rfl
  | cons pos rest ih =>
    by_cases h : isOpenFor m pos
    · simp only [updateFirstOpen, if_pos h, List.filter_cons, hf pos]
      cases isOpenFor k pos <;> simp
    · simp only [updateFirstOpen, if_neg h, List.filter_cons]
      cases isOpenFor k pos <;> simp [ih]

/-- Replacing the first open position for `m` with an update that never
turns a non-matching position into a matching one cannot increase any
mint's open-position filter length. -/
lemma filter_updateFirstOpen_le (m k : String) (f : Position → Position)
    (hf : ∀ pos, isOpenFor m pos = true →
      isOpenFor k (f pos) = true → isOpenFor k pos = true) :
    ∀ l : List Position,
      ((updateFirstOpen m f l).filter (isOpenFor k)).length
        ≤ (l.filter (isOpenFor k)).length := by
  intro l
  induction l with
  | nil => exact Nat.le_refl _
  | cons pos rest ih =>
    by_cases h : isOpenFor m pos
    · simp only [updateFirstOpen, if_pos h, List.filter_cons]
      rcases h2 : isOpenFor k (f pos) with _ | _
      · rcases h3 : isOpenFor k pos with _ | _ <;> simp
      · rw [hf pos h h2]
        simp
    · simp only [updateFirstOpen, if_neg h, List.filter_cons]
      cases isOpenFor k pos <;> simp [Nat.succ_le_succ, ih]

/-- If an open position for `m` exists, the update lands exactly on the
first one: the updated list's first open position for `m` is `f` of the
old one (provided `f` preserves mint and status). -/
lemma head_filter_updateFirstOpen (m : String) (f : Position → Position)
    (hm : ∀ pos, (f pos).mint = pos.mint) (hs : ∀ pos, (f pos).status = pos.status) :
    ∀ (l : List Position) (pos : Position),
      (l.filter (isOpenFor m)).head? = some pos →
      ((updateFirstOpen m f l).filter (isOpenFor m)).head? = some (f pos) := by
  intro l
  induction l with
  | nil => intro pos h; simp [List.filter] at h
  | cons q rest ih =>
    intro pos h
    by_cases hq : isOpenFor m q
    · rw [List.filter_cons, if_pos hq, List.head?_cons, Option.some.injEq] at h
      subst h
      simp only [updateFirstOpen, if_pos hq, List.filter_cons]
      rw [isOpenFor_congr (hm q) (hs q) m, if_pos hq, List.head?_cons]
    · rw [List.filter_cons, if_neg hq] at h
      simp only [updateFirstOpen, List.filter_cons, if_neg hq]
      exact ih pos h

/-- Closing the first open position for `m` in a list holding at most one
such position leaves no open position for `m`. -/
lemma filter_updateFirstOpen_markClosed (m : String) (e q : ℚ) :
    ∀ l : List Position,
      (l.filter (isOpenFor m)).length ≤ 1 →
      (updateFirstOpen m (markClosed e q) l).filter (isOpenFor m) = [] := by
  intro l
  induction l with
  | nil => intro _; rfl
  | cons pos rest ih =>
    intro h
    by_cases hq : isOpenFor m pos
    · simp only [List.filter_cons, if_pos hq, List.length_cons] at h
      have hrest : rest.filter (isOpenFor m) = [] := by
        have := Nat.le_of_succ_le_succ h
        exact List.eq_nil_of_length_eq_zero (Nat.le_zero.mp this)
      simp only [updateFirstOpen, if_pos hq, List.filter_cons,
        isOpenFor_markClosed, hrest]
      simp
    · rw [List.filter_cons, if_neg hq] at h
      simp only [updateFirstOpen, List.filter_cons, if_neg hq]
      exact ih h

lemma getOpen_none_filter (p : Portfolio) (m : String)
    (h : getOpenPositionForToken p m = none) :
    p.positions.filter (isOpenFor m) = [] := by
  simpa [getOpenPositionForToken, List.head?_eq_none_iff] using h

lemma openCount_eq_zero (p : Portfolio) (m : String)
    (h : getOpenPositionForToken p m = none) : openCount p m = 0 := by
  simp [openCount, getOpen_none_filter p m h]

/-- The merge update applied by the dollar-cost-averaging branch. -/
def doMergeWith (qty sol slPct tpPct : ℚ) : Position → Position :=
  fun pos => mergePosition pos qty sol slPct tpPct

lemma addPosition_some (p : Portfolio) (mint nm sy : String)
    (price qty sol slPct tpPct : ℚ) (now : ℤ) (ex : Position)
    (h : getOpenPositionForToken p mint = some ex) :
    addPosition p mint nm sy price qty sol slPct tpPct now
      = (mergePosition ex qty sol slPct tpPct,
         { p with positions := updateFirstOpen mint (doMergeWith qty sol slPct tpPct) p.positions }) := by
  simp only [addPosition, h]
  rfl

/-- The fresh position built by the new-position branch of `addPosition`. -/
def freshPosition (mint nm sy : String) (price qty slPct tpPct : ℚ) (now : ℤ) :
    Position :=
  { mint := mint, tokenName := nm, tokenSymbol := sy
    entryPrice := price, amount := qty, timestamp := now
    stopLoss := price * (1 - slPct / 100)
    takeProfit := price * (1 + tpPct / 100)
    status := "open" }

lemma addPosition_none (p : Portfolio) (mint nm sy : String)
    (price qty sol slPct tpPct : ℚ) (now : ℤ)
    (h : getOpenPositionForToken p mint = none) :
    addPosition p mint nm sy price qty sol slPct tpPct now
      = (freshPosition mint nm sy price qty slPct tpPct now,
         { p with
            positions := p.positions ++ [freshPosition mint nm sy price qty slPct tpPct now]
            totalInvestedSol := p.totalInvestedSol + sol }) := by
  simp [addPosition, h, freshPosition]

lemma closePosition_none (p : Portfolio) (mint : String) (exitP qSold pctSold : ℚ)
    (h : getOpenPositionForToken p mint = none) :
    closePosition p mint exitP qSold pctSold = (none, p) := by
  simp [closePosition, h]

lemma closePosition_some_full (p : Portfolio) (mint : String)
    (exitP qSold pctSold : ℚ) (pos : Position)
    (h : getOpenPositionForToken p mint = some pos)
    (hc : pctSold ≥ 100 ∨ qSold ≥ pos.amount) :
    closePosition p mint exitP qSold pctSold
      = (some (markClosed exitP (exitP * qSold - pos.entryPrice * qSold) pos),
         { p with
            positions := updateFirstOpen mint (markClosed exitP (exitP * qSold - pos.entryPrice * qSold)) p.positions
            realizedPnl := p.realizedPnl + (exitP * qSold - pos.entryPrice * qSold) }) := by
  simp [closePosition, h, hc]

lemma closePosition_partialClose (p : Portfolio) (mint : String)
    (exitP qSold pctSold : ℚ) (pos : Position)
    (h : getOpenPositionForToken p mint = some pos)
    (hc : ¬(pctSold ≥ 100 ∨ qSold ≥ pos.amount)) :
    closePosition p mint exitP qSold pctSold
      = (some { pos with amount := pos.amount - qSold },
         { p with
            positions := updateFirstOpen mint (fun q => { q with amount := q.amount - qSold }) p.positions
            realizedPnl := p.realizedPnl + (exitP * qSold - pos.entryPrice * qSold) }) := by
  simp [closePosition, h, hc]

/-- A concrete open position used by witnesses. -/
def openPosA : Position :=
  { mint := "A", tokenName := "TokenA", tokenSymbol := "TKA"
    entryPrice := 1, amount := 100, timestamp := 0
    stopLoss := 9/10, takeProfit := 6/5, status := "open" }

/-- A concrete portfolio holding one open position, used by witnesses. -/
def portfolioA : Portfolio :=
  { positions := [openPosA], totalInvestedSol := 100, realizedPnl := 0, unrealizedPnl := 0 }

/-- C3: at most one open position exists per mint and every ledger
operation preserves this; `addPosition` on a mint with no open position
appends exactly one fresh open position with entry price the supplied
price, stop-loss `price×(1−slPct/100)` and take-profit
`price×(1+tpPct/100)`; `addPosition` on a mint with an open position
merges into it — quantity `q1+q2`, entry price `(q1·p1+sol2)/(q1+q2)`,
stop-loss / take-profit recomputed from the new entry price and the newly
supplied percentages — and never creates a second open record (the
position list keeps its length and every mint keeps its open count). -/
theorem c3_single_open_position_invariant
    (p : Portfolio) (mint nm sy : String)
    (price qty sol slPct tpPct exitP qSold pctSold : ℚ) (now : ℤ)
    (prices : List (String × ℚ)) :
    (AtMostOneOpen p →
      AtMostOneOpen (addPosition p mint nm sy price qty sol slPct tpPct now).2 ∧
      AtMostOneOpen (closePosition p mint exitP qSold pctSold).2 ∧
      AtMostOneOpen (updateUnrealizedPnl p prices)) ∧
    (getOpenPositionForToken p mint = none →
      (addPosition p mint nm sy price qty sol slPct tpPct now).2.positions
        = p.positions ++ [freshPosition mint nm sy price qty slPct tpPct now] ∧
      (freshPosition mint nm sy price qty slPct tpPct now).entryPrice = price ∧
      (freshPosition mint nm sy price qty slPct tpPct now).stopLoss = price * (1 - slPct / 100) ∧
      (freshPosition mint nm sy price qty slPct tpPct now).takeProfit = price * (1 + tpPct / 100) ∧
      (freshPosition mint nm sy price qty slPct tpPct now).status = "open") ∧
    (∀ ex, getOpenPositionForToken p mint = some ex →
      (addPosition p mint nm sy price qty sol slPct tpPct now).2.positions.length
          = p.positions.length ∧
      (∀ k, openCount (addPosition p mint nm sy price qty sol slPct tpPct now).2 k
          = openCount p k) ∧
      getOpenPositionForToken (addPosition p mint nm sy price qty sol slPct tpPct now).2 mint
          = some (mergePosition ex qty sol slPct tpPct) ∧
      (mergePosition ex qty sol slPct tpPct).amount = ex.amount + qty ∧
      (mergePosition ex qty sol slPct tpPct).entryPrice
          = (ex.amount * ex.entryPrice + sol) / (ex.amount + qty) ∧
      (mergePosition ex qty sol slPct tpPct).stopLoss
          = (ex.amount * ex.entryPrice + sol) / (ex.amount + qty) * (1 - slPct / 100) ∧
      (mergePosition ex qty sol slPct tpPct).takeProfit
          = (ex.amount * ex.entryPrice + sol) / (ex.amount + qty) * (1 + tpPct / 100) ∧
      (mergePosition ex qty sol slPct tpPct).status = ex.status) := by
  have hmerge : ∀ k pos, isOpenFor k (doMergeWith qty sol slPct tpPct pos) = isOpenFor k pos := by
    intro k pos
    exact isOpenFor_congr (mergePosition_mint pos qty sol slPct tpPct)
      (mergePosition_status pos qty sol slPct tpPct) k
  refine ⟨?_, ?_, ?_⟩
  · intro hinv
    refine ⟨?_, ?_, ?_⟩
    · rcases h : getOpenPositionForToken p mint with _ | ex
      · rw [addPosition_none p mint nm sy price qty sol slPct tpPct now h]
        intro k
        have hzero := openCount_eq_zero p mint h
        simp only [openCount, List.filter_append]
        by_cases hk : k = mint
        · rw [hk]
          simp only [openCount] at hzero
          rw [List.length_append, hzero]
          cases hf : isOpenFor mint (freshPosition mint nm sy price qty slPct tpPct now) <;>
            simp [List.filter, hf]
        · have : isOpenFor k (freshPosition mint nm sy price qty slPct tpPct now) = false := by
            simp [isOpenFor, freshPosition]
            intro hc
            exact absurd hc.symm hk
          simp only [List.filter, this, List.length_append]
          simpa [openCount] using hinv k
      · rw [addPosition_some p mint nm sy price qty sol slPct tpPct now ex h]
        intro k
        simp only [openCount]
        rw [filter_updateFirstOpen_length mint k _ (hmerge k)]
        exact hinv k
    · rcases h : getOpenPositionForToken p mint with _ | pos
      · rw [closePosition_none p mint exitP qSold pctSold h]
        exact hinv
      · by_cases hc : pctSold ≥ 100 ∨ qSold ≥ pos.amount
        · rw [closePosition_some_full p mint exitP qSold pctSold pos h hc]
          intro k
          simp only [openCount]
          refine Nat.le_trans (filter_updateFirstOpen_le mint k _ ?_ p.positions) (hinv k)
          intro q _ h2
          rw [isOpenFor_markClosed] at h2
          exact absurd h2 (by simp)
        · rw [closePosition_partialClose p mint exitP qSold pctSold pos h hc]
          intro k
          simp only [openCount]
          rw [filter_updateFirstOpen_length mint k
            (fun q => { q with amount := q.amount - qSold })
            (fun q => isOpenFor_congr rfl rfl k)]
          exact hinv k
    · intro k
      exact hinv k
  · intro h
    rw [addPosition_none p mint nm sy price qty sol slPct tpPct now h]
    exact ⟨rfl, rfl, rfl, rfl, rfl⟩
  · intro ex h
    rw [addPosition_some p mint nm sy price qty sol slPct tpPct now ex h]
    refine ⟨?_, ?_, ?_, rfl, rfl, rfl, rfl, rfl⟩
    · simp only [openCount] at *
      have := filter_updateFirstOpen_length mint mint (doMergeWith qty sol slPct tpPct) (hmerge mint) p.positions
      -- length is preserved elementwise by updateFirstOpen
      clear this
      induction p.positions with
      | nil => rfl
      | cons q rest ih =>
        by_cases hq : isOpenFor mint q
        · simp [updateFirstOpen, hq]
        · simp [updateFirstOpen, hq, ih]
    · intro k
      simp only [openCount]
      rw [filter_updateFirstOpen_length mint k _ (hmerge k)]
    · have hh : (p.positions.filter (isOpenFor mint)).head? = some ex := h
      have := head_filter_updateFirstOpen mint (doMergeWith qty sol slPct tpPct)
        (fun pos => mergePosition_mint pos qty sol slPct tpPct)
        (fun pos => mergePosition_status pos qty sol slPct tpPct) p.positions ex hh
      exact this

lemma portfolioA_atMostOne : AtMostOneOpen portfolioA := by
  intro k
  simp only [openCount, portfolioA, List.filter]
  cases hf : isOpenFor k openPosA <;> simp [hf]

/-- C3 witness: a concrete merging buy on a one-position portfolio
preserves the invariant and yields the merged open position. -/
theorem c3_single_open_position_invariant_witness :
    AtMostOneOpen (addPosition portfolioA "A" "n" "s" (6/5) 50 60 10 20 1).2 ∧
    getOpenPositionForToken (addPosition portfolioA "A" "n" "s" (6/5) 50 60 10 20 1).2 "A"
      = some (mergePosition openPosA 50 60 10 20) :=
  ⟨((c3_single_open_position_invariant portfolioA "A" "n" "s" (6/5) 50 60 10 20 1 1 1 1
      []).1 portfolioA_atMostOne).1,
   ((c3_single_open_position_invariant portfolioA "A" "n" "s" (6/5) 50 60 10 20 1 1 1 1
      []).2.2 openPosA rfl).2.2.1⟩

lemma getOpen_some_props (p : Portfolio) (m : String) (pos : Position)
    (h : getOpenPositionForToken p m = some pos) :
    pos.mint = m ∧ pos.status = "open" := by
  have hmem : pos ∈ p.positions.filter (isOpenFor m) := by
    cases hl : p.positions.filter (isOpenFor m) with
    | nil => rw [getOpenPositionForToken, hl] at h; simp at h
    | cons a t =>
      rw [getOpenPositionForToken, hl] at h
      rw [List.head?_cons, Option.some.injEq] at h
      subst h
      exact List.mem_cons_self _ _
  have := (List.mem_filter.mp hmem).2
  simpa [isOpenFor] using this

/-- C4: on a mint with an open position, `closePosition` always adds
`(exitPrice − entryPrice) × quantitySold` to cumulative realized P&L;
it marks the position closed — recording the exit price and that delta as
the position's pnl — exactly when `percentSold ≥ 100` or `quantitySold`
reaches the remaining quantity, and otherwise reduces the open position's
quantity by `quantitySold` leaving it open; on a mint with no open
position it returns `none` and leaves the portfolio unchanged. -/
theorem c4_closePosition_spec (p : Portfolio) (mint : String)
    (exitP qSold pctSold : ℚ) (hinv : AtMostOneOpen p) :
    (getOpenPositionForToken p mint = none →
      closePosition p mint exitP qSold pctSold = (none, p)) ∧
    (∀ pos, getOpenPositionForToken p mint = some pos →
      pos.status = "open" ∧
      (closePosition p mint exitP qSold pctSold).2.realizedPnl
          = p.realizedPnl + (exitP - pos.entryPrice) * qSold ∧
      (pctSold ≥ 100 ∨ qSold ≥ pos.amount →
        (closePosition p mint exitP qSold pctSold).1
            = some (markClosed exitP ((exitP - pos.entryPrice) * qSold) pos) ∧
        (markClosed exitP ((exitP - pos.entryPrice) * qSold) pos).status = "closed" ∧
        (markClosed exitP ((exitP - pos.entryPrice) * qSold) pos).exitPrice = some exitP ∧
        (markClosed exitP ((exitP - pos.entryPrice) * qSold) pos).pnl
            = some ((exitP - pos.entryPrice) * qSold) ∧
        getOpenPositionForToken (closePosition p mint exitP qSold pctSold).2 mint = none) ∧
      (¬(pctSold ≥ 100 ∨ qSold ≥ pos.amount) →
        (closePosition p mint exitP qSold pctSold).1
            = some { pos with amount := pos.amount - qSold } ∧
        ({ pos with amount := pos.amount - qSold }).status = pos.status ∧
        getOpenPositionForToken (closePosition p mint exitP qSold pctSold).2 mint
            = some { pos with amount := pos.amount - qSold })) := by
  constructor
  · intro h
    exact closePosition_none p mint exitP qSold pctSold h
  · intro pos h
    have harith : exitP * qSold - pos.entryPrice * qSold = (exitP - pos.entryPrice) * qSold := by
      ring
    refine ⟨(getOpen_some_props p mint pos h).2, ?_, ?_, ?_⟩
    · by_cases hc : pctSold ≥ 100 ∨ qSold ≥ pos.amount
      · rw [closePosition_some_full p mint exitP qSold pctSold pos h hc, ← harith]
      · rw [closePosition_partialClose p mint exitP qSold pctSold pos h hc, ← harith]
    · intro hc
      rw [closePosition_some_full p mint exitP qSold pctSold pos h hc]
      refine ⟨by rw [harith], rfl, rfl, rfl, ?_⟩
      have hfil := filter_updateFirstOpen_markClosed mint exitP
        (exitP * qSold - pos.entryPrice * qSold) p.positions (hinv mint)
      simp only [getOpenPositionForToken, hfil]
      rfl
    · intro hc
      rw [closePosition_partialClose p mint exitP qSold pctSold pos h hc]
      refine ⟨rfl, rfl, ?_⟩
      exact head_filter_updateFirstOpen mint (fun q => { q with amount := q.amount - qSold })
        (fun q => rfl) (fun q => rfl) p.positions pos h

/-- C4 witness: a concrete full close on a one-position portfolio books the
delta and leaves no open position. -/
theorem c4_closePosition_spec_witness :
    (closePosition portfolioA "A" 2 100 100).2.realizedPnl
        = portfolioA.realizedPnl + (2 - openPosA.entryPrice) * 100 ∧
    getOpenPositionForToken (closePosition portfolioA "A" 2 100 100).2 "A" = none :=
  ⟨(((c4_closePosition_spec portfolioA "A" 2 100 100 portfolioA_atMostOne).2 openPosA
      rfl).2.1),
   (((c4_closePosition_spec portfolioA "A" 2 100 100 portfolioA_atMostOne).2 openPosA
      rfl).2.2.1 (Or.inl (by norm_num))).2.2.2.2⟩

/-- C5 counterexample: a buy that merges into an existing open position
(`portfolioA` holds an open position for `"A"`) leaves `totalInvestedSol`
unchanged instead of increasing it by the supplied `solAmount = 60`. -/
theorem c5_counterexample :
    (addPosition portfolioA "A" "n" "s" (6/5) 50 60 10 20 1).2.totalInvestedSol
      ≠ portfolioA.totalInvestedSol + 60 := by
  rw [addPosition_some portfolioA "A" "n" "s" (6/5) 50 60 10 20 1 openPosA rfl]
  norm_num [portfolioA]

/-- C5 (amended): `addPosition` increases cumulative invested SOL by the
supplied `solAmount` exactly when it creates a fresh position (no open
position exists for the mint); a buy that merges into an existing open
position leaves `totalInvestedSol` unchanged. -/
theorem c5_total_invested_spec (p : Portfolio) (mint nm sy : String)
    (price qty sol slPct tpPct : ℚ) (now : ℤ) :
    (getOpenPositionForToken p mint = none →
      (addPosition p mint nm sy price qty sol slPct tpPct now).2.totalInvestedSol
        = p.totalInvestedSol + sol) ∧
    (∀ ex, getOpenPositionForToken p mint = some ex →
      (addPosition p mint nm sy price qty sol slPct tpPct now).2.totalInvestedSol
        = p.totalInvestedSol) := by
  constructor
  · intro h
    rw [addPosition_none p mint nm sy price qty sol slPct tpPct now h]
  · intro ex h
    rw [addPosition_some p mint nm sy price qty sol slPct tpPct now ex h]

/-- C5 witness: a fresh buy on the empty portfolio increases the invested
total by its SOL amount. -/
theorem c5_total_invested_spec_witness :
    (addPosition emptyPortfolio "A" "n" "s" 1 2 3 10 20 0).2.totalInvestedSol
      = emptyPortfolio.totalInvestedSol + 3 :=
  (c5_total_invested_spec emptyPortfolio "A" "n" "s" 1 2 3 10 20 0).1 rfl

/-- A concrete portfolio with 2 SOL invested and no positions, used as a
counterexample input. -/
def investedPortfolio : Portfolio :=
  { emptyPortfolio with totalInvestedSol := 2 }

/-- The minimum the optimal-size computation actually takes in the source:
the balance term is clamped at zero (`Math.max(0, balance - gasFeeBuffer)`)
before entering the four-way `Math.min`. -/
def optimalSizeBound (cfg : BotConfig) (p : Portfolio) (s : RiskState)
    (now : ℤ) (balance : ℚ) : ℚ :=
  min (min (min (max 0 (balance - gasFeeBuffer))
    (getTotalValue p * (cfg.riskManagement.maxPositionSizePercentage / 100)))
    (cfg.riskManagement.maxDailyTradingVolume - (getDailyTradingVolume s now).1))
    cfg.trading.maxTradeAmountSol

lemma getOptimalTradeSize_eq (cfg : BotConfig) (p : Portfolio) (s : RiskState)
    (now : ℤ) (balance : ℚ) (mint : String) :
    getOptimalTradeSize cfg p s now balance mint
      = (if optimalSizeBound cfg p s now balance < cfg.trading.minTradeAmountSol then
          ((0 : ℚ), (getDailyTradingVolume s now).2)
         else
          match getOpenPositionForToken p mint with
          | some _ => (optimalSizeBound cfg p s now balance * (1/2), (getDailyTradingVolume s now).2)
          | none => (optimalSizeBound cfg p s now balance, (getDailyTradingVolume s now).2)) := rfl

/-- C1 counterexample: with the default configuration, a zero balance, a
portfolio worth 2 SOL and an untouched daily counter, the claimed bound
`min(balance − feeBuffer, …)` is `−0.01`, yet the call returns `0`, which
exceeds it — the source clamps the balance term at zero before taking the
minimum, so the returned amount is not bounded by `balance − feeBuffer`. -/
theorem c1_counterexample :
    ¬ ((getOptimalTradeSize defaultConfig investedPortfolio ⟨0, 10⟩ 5 0 "M").1
        ≤ min (min (min ((0 : ℚ) - gasFeeBuffer)
            (getTotalValue investedPortfolio * (defaultConfig.riskManagement.maxPositionSizePercentage / 100)))
            (defaultConfig.riskManagement.maxDailyTradingVolume
              - (getDailyTradingVolume ⟨0, 10⟩ 5).1))
            defaultConfig.trading.maxTradeAmountSol) := by
  norm_num [getOptimalTradeSize, getDailyTradingVolume, checkDailyReset,
    getTotalValue, investedPortfolio, emptyPortfolio, defaultConfig, gasFeeBuffer,
    getOpenPositionForToken]

/-- C1 (amended): the returned amount is either the zero fallback or at
most the minimum of the zero-clamped balance headroom, the portfolio
percentage cap, the remaining daily allowance (after lazy reset) and the
global maximum; when that minimum is below the configured minimum trade
amount the call returns 0; otherwise the minimum is returned, halved when
the token already has an open position. -/
theorem c1_optimal_size_spec (cfg : BotConfig) (p : Portfolio) (s : RiskState)
    (now : ℤ) (balance : ℚ) (mint : String)
    (hmin : 0 ≤ cfg.trading.minTradeAmountSol) :
    ((getOptimalTradeSize cfg p s now balance mint).1 = 0 ∨
      (getOptimalTradeSize cfg p s now balance mint).1 ≤ optimalSizeBound cfg p s now balance) ∧
    (optimalSizeBound cfg p s now balance < cfg.trading.minTradeAmountSol →
      (getOptimalTradeSize cfg p s now balance mint).1 = 0) ∧
    (cfg.trading.minTradeAmountSol ≤ optimalSizeBound cfg p s now balance →
      (getOptimalTradeSize cfg p s now balance mint).1
        = (match getOpenPositionForToken p mint with
           | some _ => optimalSizeBound cfg p s now balance * (1/2)
           | none => optimalSizeBound cfg p s now balance)) := by
  rw [getOptimalTradeSize_eq]
  by_cases hlt : optimalSizeBound cfg p s now balance < cfg.trading.minTradeAmountSol
  · rw [if_pos hlt]
    refine ⟨Or.inl rfl, fun _ => rfl, fun hge => absurd hlt (not_lt.mpr hge)⟩
  · rw [if_neg hlt]
    have hge : cfg.trading.minTradeAmountSol ≤ optimalSizeBound cfg p s now balance :=
      not_lt.mp hlt
    have hnn : 0 ≤ optimalSizeBound cfg p s now balance := le_trans hmin hge
    rcases hpos : getOpenPositionForToken p mint with _ | ex
    · exact ⟨Or.inr (le_refl _), fun hc => absurd hc (not_lt.mpr hge), fun _ => rfl⟩
    · refine ⟨Or.inr ?_, fun hc => absurd hc (not_lt.mpr hge), fun _ => rfl⟩
      linarith

/-- C1 witness: at the default configuration with balance 1 SOL and an
empty portfolio, the bound is 0 (the portfolio term), which is below the
0.01 minimum, so the call returns 0. -/
theorem c1_optimal_size_spec_witness :
    (getOptimalTradeSize defaultConfig emptyPortfolio ⟨0, 10⟩ 5 1 "M").1 = 0 :=
  (c1_optimal_size_spec defaultConfig emptyPortfolio ⟨0, 10⟩ 5 1 "M"
    (by norm_num [defaultConfig])).2.1
    (by norm_num [optimalSizeBound, getDailyTradingVolume, checkDailyReset,
      getTotalValue, emptyPortfolio, defaultConfig, gasFeeBuffer])

/-- C6: the lazy daily reset — a call at or after the scheduled timestamp
zeroes the counter and schedules the next midnight-UTC boundary (the next
multiple of a day, strictly in the future and at most a day away); an
earlier call leaves the state untouched, so no second reset can occur
before the next boundary; `trackTradeVolume` adds its amount on top of the
lazily-reset counter, and the counter never becomes negative. -/
theorem c6_daily_volume_reset_spec (s : RiskState) (now now2 : ℤ) (amt : ℚ) :
    (now ≥ s.dailyResetTimestamp →
      checkDailyReset s now
        = { dailyTradingVolume := 0, dailyResetTimestamp := nextUtcMidnight now }) ∧
    (now < s.dailyResetTimestamp → checkDailyReset s now = s) ∧
    (now < nextUtcMidnight now ∧ nextUtcMidnight now ≤ now + msPerDay ∧
      msPerDay ∣ nextUtcMidnight now) ∧
    (now2 < nextUtcMidnight now →
      checkDailyReset (resetDailyVolume now) now2 = resetDailyVolume now) ∧
    (trackTradeVolume s now amt).dailyTradingVolume
        = (checkDailyReset s now).dailyTradingVolume + amt ∧
    (getDailyTradingVolume s now).1 = (checkDailyReset s now).dailyTradingVolume ∧
    (0 ≤ s.dailyTradingVolume → 0 ≤ amt →
      0 ≤ (trackTradeVolume s now amt).dailyTradingVolume ∧
      0 ≤ (getDailyTradingVolume s now).1) := by
  have hcheck : 0 ≤ s.dailyTradingVolume →
      0 ≤ (checkDailyReset s now).dailyTradingVolume := by
    intro h
    rw [checkDailyReset]
    split
    · exact le_refl 0
    · exact h
  refine ⟨?_, ?_, ?_, ?_, rfl, rfl, ?_⟩
  · intro h
    rw [checkDailyReset, if_pos h, resetDailyVolume]
  · intro h
    rw [checkDailyReset, if_neg (not_le.mpr h)]
  · have hd : (0 : ℤ) < msPerDay := by norm_num [msPerDay]
    have hmod0 : 0 ≤ now.emod msPerDay := Int.emod_nonneg now (by norm_num [msPerDay])
    have hmod1 : now.emod msPerDay < msPerDay := Int.emod_lt_of_pos now hd
    refine ⟨?_, ?_, ?_⟩
    · rw [nextUtcMidnight]; omega
    · rw [nextUtcMidnight]; omega
    · rw [nextUtcMidnight]
      exact dvd_add (Int.dvd_sub_of_emod_eq rfl) (dvd_refl _)
  · intro h
    rw [checkDailyReset, resetDailyVolume]
    simp only [not_le.mpr h, if_false]
  · intro h0 hamt
    constructor
    · rw [trackTradeVolume]
      have := hcheck h0
      positivity
    · exact hcheck h0

/-- C6 witness: a call past the scheduled reset zeroes the counter and
schedules the next UTC midnight; tracking then adds on top of the reset
counter. -/
theorem c6_daily_volume_reset_spec_witness :
    checkDailyReset ⟨3, 10⟩ 12
        = { dailyTradingVolume := 0, dailyResetTimestamp := nextUtcMidnight 12 } ∧
    (trackTradeVolume ⟨3, 10⟩ 12 2).dailyTradingVolume
        = (checkDailyReset ⟨3, 10⟩ 12).dailyTradingVolume + 2 ∧
    0 ≤ (trackTradeVolume ⟨3, 10⟩ 12 2).dailyTradingVolume :=
  ⟨(c6_daily_volume_reset_spec ⟨3, 10⟩ 12 0 2).1 (by norm_num),
   (c6_daily_volume_reset_spec ⟨3, 10⟩ 12 0 2).2.2.2.2.1,
   ((c6_daily_volume_reset_spec ⟨3, 10⟩ 12 0 2).2.2.2.2.2.2 (by norm_num) (by norm_num)).1⟩

lemma checkTrade_buy_eq (cfg : BotConfig) (p : Portfolio) (s : RiskState)
    (now : ℤ) (balance : ℚ) (hasToken : Bool) (solAmount : ℚ) :
    checkTrade cfg p s now balance hasToken "buy" solAmount
      = (if balance < solAmount + gasFeeBuffer then
           ({ allowed := false, reason := some .insufficientBalance }, checkDailyReset s now)
         else if (checkDailyReset s now).dailyTradingVolume + solAmount
             > cfg.riskManagement.maxDailyTradingVolume then
           ({ allowed := false, reason := some .dailyVolumeExceeded }, checkDailyReset s now)
         else if solAmount < cfg.trading.minTradeAmountSol then
           ({ allowed := false, reason := some .belowMinTradeAmount }, checkDailyReset s now)
         else if solAmount > cfg.trading.maxTradeAmountSol then
           ({ allowed := false, reason := some .aboveMaxTradeAmount }, checkDailyReset s now)
         else if solAmount > getTotalValue p * (cfg.riskManagement.maxPositionSizePercentage / 100) then
           ({ allowed := false, reason := some .exceedsMaxPositionSize }, checkDailyReset s now)
         else ({ allowed := true }, checkDailyReset s now)) := rfl

lemma checkTrade_sell_eq (cfg : BotConfig) (p : Portfolio) (s : RiskState)
    (now : ℤ) (balance : ℚ) (hasToken : Bool) (solAmount : ℚ) :
    checkTrade cfg p s now balance hasToken "sell" solAmount
      = (if !hasToken then
           ({ allowed := false, reason := some .tokenNotInWallet }, checkDailyReset s now)
         else ({ allowed := true }, checkDailyReset s now)) := rfl

/-- C2: `checkTrade` is allowed exactly when every applicable check passes;
for buys the five checks run in source order on the lazily-reset counter
with the first failure naming the reason — (1) balance covers amount plus
the fee buffer, (2) daily volume plus amount within the cap, (3) amount at
least the minimum, (4) amount at most the maximum, (5) amount within the
portfolio-percentage cap; for sells the only check is token possession and
the requested amount is never validated. -/
theorem c2_checkTrade_spec (cfg : BotConfig) (p : Portfolio) (s : RiskState)
    (now : ℤ) (balance : ℚ) (hasToken : Bool) (solAmount : ℚ) :
    ((checkTrade cfg p s now balance hasToken "buy" solAmount).1.allowed = true ↔
      (solAmount + gasFeeBuffer ≤ balance ∧
       (checkDailyReset s now).dailyTradingVolume + solAmount
           ≤ cfg.riskManagement.maxDailyTradingVolume ∧
       cfg.trading.minTradeAmountSol ≤ solAmount ∧
       solAmount ≤ cfg.trading.maxTradeAmountSol ∧
       solAmount ≤ getTotalValue p * (cfg.riskManagement.maxPositionSizePercentage / 100))) ∧
    ((checkTrade cfg p s now balance hasToken "buy" solAmount).1.reason
        = some .insufficientBalance ↔ balance < solAmount + gasFeeBuffer) ∧
    ((checkTrade cfg p s now balance hasToken "buy" solAmount).1.reason
        = some .dailyVolumeExceeded ↔
      (solAmount + gasFeeBuffer ≤ balance ∧
       cfg.riskManagement.maxDailyTradingVolume
         < (checkDailyReset s now).dailyTradingVolume + solAmount)) ∧
    ((checkTrade cfg p s now balance hasToken "buy" solAmount).1.reason
        = some .belowMinTradeAmount ↔
      (solAmount + gasFeeBuffer ≤ balance ∧
       (checkDailyReset s now).dailyTradingVolume + solAmount
           ≤ cfg.riskManagement.maxDailyTradingVolume ∧
       solAmount < cfg.trading.minTradeAmountSol)) ∧
    ((checkTrade cfg p s now balance hasToken "buy" solAmount).1.reason
        = some .aboveMaxTradeAmount ↔
      (solAmount + gasFeeBuffer ≤ balance ∧
       (checkDailyReset s now).dailyTradingVolume + solAmount
           ≤ cfg.riskManagement.maxDailyTradingVolume ∧
       cfg.trading.minTradeAmountSol ≤ solAmount ∧
       cfg.trading.maxTradeAmountSol < solAmount)) ∧
    ((checkTrade cfg p s now balance hasToken "buy" solAmount).1.reason
        = some .exceedsMaxPositionSize ↔
      (solAmount + gasFeeBuffer ≤ balance ∧
       (checkDailyReset s now).dailyTradingVolume + solAmount
           ≤ cfg.riskManagement.maxDailyTradingVolume ∧
       cfg.trading.minTradeAmountSol ≤ solAmount ∧
       solAmount ≤ cfg.trading.maxTradeAmountSol ∧
       getTotalValue p * (cfg.riskManagement.maxPositionSizePercentage / 100) < solAmount)) ∧
    ((checkTrade cfg p s now balance hasToken "buy" solAmount).2 = checkDailyReset s now) ∧
    ((checkTrade cfg p s now balance hasToken "sell" solAmount).1.allowed = true ↔
      hasToken = true) ∧
    ((checkTrade cfg p s now balance hasToken "sell" solAmount).1.reason
        = some .tokenNotInWallet ↔ hasToken = false) ∧
    ((checkTrade cfg p s now balance hasToken "sell" solAmount).2 = checkDailyReset s now) := by
  rw [checkTrade_buy_eq, checkTrade_sell_eq]
  by_cases h1 : balance < solAmount + gasFeeBuffer <;>
    by_cases h2 : (checkDailyReset s now).dailyTradingVolume + solAmount
        > cfg.riskManagement.maxDailyTradingVolume <;>
    by_cases h3 : solAmount < cfg.trading.minTradeAmountSol <;>
    by_cases h4 : solAmount > cfg.trading.maxTradeAmountSol <;>
    by_cases h5 : solAmount
        > getTotalValue p * (cfg.riskManagement.maxPositionSizePercentage / 100) <;>
    cases hasToken <;>
    simp [h1, h2, h3, h4, h5] <;>
    simp_all [not_lt]

/-- C2 witness: the spec's scenario 5 — daily counter at 6 SOL against a
5 SOL cap rejects a 1 SOL buy with the daily-volume reason, and a sell with
the token in the wallet is allowed. -/
theorem c2_checkTrade_spec_witness :
    ((checkTrade defaultConfig investedPortfolio ⟨6, 10⟩ 5 100 true "buy" 1).1.reason
        = some .dailyVolumeExceeded) ∧
    ((checkTrade defaultConfig investedPortfolio ⟨6, 10⟩ 5 100 true "sell" 1).1.allowed = true) :=
  ⟨((c2_checkTrade_spec defaultConfig investedPortfolio ⟨6, 10⟩ 5 100 true 1).2.2.1).mpr
    (by norm_num [checkDailyReset, defaultConfig, gasFeeBuffer]),
   ((c2_checkTrade_spec defaultConfig investedPortfolio ⟨6, 10⟩ 5 100 true 1).2.2.2.2.2.2.2.1).mpr rfl⟩

lemma processEventGo_cons_abstain (ev : WebSocketEvent) (s : StrategyBehavior)
    (rest : List StrategyBehavior) (h : accepts s ev = none) :
    processEventGo ev (s :: rest) = processEventGo ev rest := by
  rw [processEventGo]
  rcases hst : s.shouldTrade ev with _ | b
  · rfl
  · cases b
    · rfl
    · rcases hgt : s.getTrade ev with _ | r
      · rfl
      · cases r with
        | none => rfl
        | some t =>
          rw [accepts, hst, hgt] at h
          exact absurd h (by simp)

lemma processEventGo_cons_accept (ev : WebSocketEvent) (s : StrategyBehavior)
    (rest : List StrategyBehavior) (t : TradeRequest) (h : accepts s ev = some t) :
    processEventGo ev (s :: rest) = some (s, t) := by
  rw [accepts] at h
  rcases hst : s.shouldTrade ev with _ | b
  · rw [hst] at h; exact absurd h (by simp)
  · cases b
    · rw [hst] at h; exact absurd h (by simp)
    · rw [hst] at h
      rcases hgt : s.getTrade ev with _ | r
      · rw [hgt] at h; exact absurd h (by simp)
      · cases r with
        | none => rw [hgt] at h; exact absurd h (by simp)
        | some t2 =>
          rw [hgt] at h
          rw [Option.some.injEq] at h
          subst h
          rw [processEventGo, hst, hgt]

/-- C10: the pipeline consults the enabled strategies in registration
order; a strategy whose `shouldTrade` or `getTrade` throws, declines, or
yields a null proposal is skipped and evaluation continues; the first
strategy yielding a proposal is returned with it, and nothing after the
accepting strategy influences the outcome (appending further strategies
does not change an accepted result); the pipeline returns nothing exactly
when every enabled strategy abstains; disabled strategies are skipped
entirely. -/
theorem c10_pipeline_spec (ev : WebSocketEvent) :
    (∀ (s : StrategyBehavior) (rest : List StrategyBehavior),
      accepts s ev = none → processEventGo ev (s :: rest) = processEventGo ev rest) ∧
    (∀ (s : StrategyBehavior) (rest : List StrategyBehavior) (t : TradeRequest),
      accepts s ev = some t → processEventGo ev (s :: rest) = some (s, t)) ∧
    (∀ (s : StrategyBehavior), s.shouldTrade ev = none →
      ∀ rest, processEventGo ev (s :: rest) = processEventGo ev rest) ∧
    (∀ (s : StrategyBehavior), s.shouldTrade ev = some true → s.getTrade ev = none →
      ∀ rest, processEventGo ev (s :: rest) = processEventGo ev rest) ∧
    (∀ l1 l2 r, processEventGo ev l1 = some r →
      processEventGo ev (l1 ++ l2) = some r) ∧
    (∀ l, processEventGo ev l = none ↔ ∀ s ∈ l, accepts s ev = none) ∧
    (∀ l r, processEventGo ev l = some r ↔
      ∃ i, l.get? i = some r.1 ∧ accepts r.1 ev = some r.2 ∧
        ∀ j, j < i → ∀ s, l.get? j = some s → accepts s ev = none) ∧
    (∀ (s : StrategyBehavior) (strategies : List StrategyBehavior),
      s.isEnabled = false →
      processEvent (s :: strategies) ev = processEvent strategies ev) := by
  refine ⟨processEventGo_cons_abstain ev, processEventGo_cons_accept ev, ?_, ?_, ?_, ?_, ?_, ?_⟩
  · intro s hst rest
    exact processEventGo_cons_abstain ev s rest (by rw [accepts, hst])
  · intro s hst hgt rest
    exact processEventGo_cons_abstain ev s rest (by rw [accepts, hst, hgt])
  · intro l1
    induction l1 with
    | nil => intro l2 r h; exact absurd h (by simp [processEventGo])
    | cons s rest ih =>
      intro l2 r h
      rcases ha : accepts s ev with _ | t
      · rw [processEventGo_cons_abstain ev s rest ha] at h
        rw [List.cons_append, processEventGo_cons_abstain ev s (rest ++ l2) ha]
        exact ih l2 r h
      · rw [processEventGo_cons_accept ev s rest t ha] at h
        rw [List.cons_append, processEventGo_cons_accept ev s (rest ++ l2) t ha]
        exact h
  · intro l
    induction l with
    | nil => simp [processEventGo]
    | cons s rest ih =>
      constructor
      · intro h s2 hs2
        rcases ha : accepts s ev with _ | t
        · rw [processEventGo_cons_abstain ev s rest ha] at h
          rcases List.mem_cons.mp hs2 with h2 | h2
          · rw [h2]; exact ha
          · exact ih.mp h s2 h2
        · rw [processEventGo_cons_accept ev s rest t ha] at h
          exact absurd h (by simp)
      · intro h
        have ha : accepts s ev = none := h s (List.mem_cons_self _ _)
        rw [processEventGo_cons_abstain ev s rest ha]
        exact ih.mpr (fun s2 hs2 => h s2 (List.mem_cons_of_mem _ hs2))
  · intro l
    induction l with
    | nil =>
      intro r
      constructor
      · intro h; exact absurd h (by simp [processEventGo])
      · rintro ⟨i, hget, -, -⟩
        exact absurd hget (by simp)
    | cons s rest ih =>
      intro r
      constructor
      · intro h
        rcases ha : accepts s ev with _ | t
        · rw [processEventGo_cons_abstain ev s rest ha] at h
          rcases (ih r).mp h with ⟨i, hget, hacc, hbefore⟩
          refine ⟨i + 1, by simpa using hget, hacc, ?_⟩
          intro j hj s2 hs2
          cases j with
          | zero =>
            rw [List.get?_cons_zero, Option.some.injEq] at hs2
            rw [← hs2]; exact ha
          | succ j2 =>
            rw [List.get?_cons_succ] at hs2
            exact hbefore j2 (Nat.lt_of_succ_lt_succ hj) s2 hs2
        · rw [processEventGo_cons_accept ev s rest t ha] at h
          rw [Option.some.injEq] at h
          refine ⟨0, ?_, ?_, by omega⟩
          · rw [← h]
            rfl
          · rw [← h]; exact ha
      · rintro ⟨i, hget, hacc, hbefore⟩
        cases i with
        | zero =>
          rw [List.get?_cons_zero, Option.some.injEq] at hget
          rw [hget, processEventGo_cons_accept ev r.1 rest r.2 hacc]
        | succ i2 =>
          have ha : accepts s ev = none :=
            hbefore 0 (Nat.succ_pos i2) s (List.get?_cons_zero ▸ rfl)
          rw [processEventGo_cons_abstain ev s rest ha]
          rw [List.get?_cons_succ] at hget
          exact (ih r).mpr ⟨i2, hget, hacc, fun j hj s2 hs2 =>
            hbefore (j + 1) (Nat.succ_lt_succ hj) s2 (by simpa using hs2)⟩
  · intro s strategies hs
    rw [processEvent, processEvent, List.filter_cons, hs]
    simp

/-- An always-throwing strategy behaviour, used in the pipeline witness. -/
def throwingStrategy : StrategyBehavior :=
  { isEnabled := true, shouldTrade := fun _ => none, getTrade := fun _ => none }

/-- A sample buy proposal, used in the pipeline witness. -/
def sampleTrade : TradeRequest :=
  { action := "buy", mint := "M", amount := .sol 1, denominatedInSol := true
    slippage := 1, priorityFee := 1/100000, pool := "pump", skipPreflight := false }

/-- An always-accepting strategy behaviour, used in the pipeline witness. -/
def acceptingStrategy : StrategyBehavior :=
  { isEnabled := true, shouldTrade := fun _ => some true
    getTrade := fun _ => some (some sampleTrade) }

/-- C10 witness: a throwing strategy ahead of an accepting one is skipped
and the accepting strategy's proposal is returned with it. -/
theorem c10_pipeline_spec_witness :
    processEventGo (WebSocketEvent.other "x") [throwingStrategy, acceptingStrategy]
      = some (acceptingStrategy, sampleTrade) :=
  ((c10_pipeline_spec (WebSocketEvent.other "x")).1 throwingStrategy
    [acceptingStrategy] rfl).trans
  ((c10_pipeline_spec (WebSocketEvent.other "x")).2.1 acceptingStrategy [] sampleTrade rfl)

lemma sniperShouldTrade_not_newToken (prm : SniperParams) (st : SniperState)
    (ev : WebSocketEvent) (now : ℤ) (h : newTokenMint ev = none) :
    sniperShouldTrade prm true st ev now = (false, st) := by
  cases ev with
  | newToken d => simp [newTokenMint] at h
  | tokenTrade d => rfl
  | other t => rfl

lemma sniperShouldTrade_processed (prm : SniperParams) (st : SniperState)
    (d : NewTokenData) (now : ℤ) (h : d.mint ∈ st.processed) :
    sniperShouldTrade prm true st (.newToken d) now = (false, st) := by
  simp [sniperShouldTrade, h]

lemma sniperShouldTrade_accept (prm : SniperParams) (st : SniperState)
    (d : NewTokenData) (now : ℤ)
    (h : (sniperShouldTrade prm true st (.newToken d) now).1 = true) :
    d.mint ∉ st.processed ∧
    (sniperShouldTrade prm true st (.newToken d) now).2.processed
      = st.processed ++ [d.mint] := by
  rw [sniperShouldTrade] at h ⊢
  simp only [Bool.not_true, Bool.false_eq_true, if_false] at h ⊢
  split_ifs at h ⊢ with h1 h2 h3 h4
  simp_all

lemma sniperShouldTrade_state (prm : SniperParams) (st : SniperState)
    (ev : WebSocketEvent) (now : ℤ) :
    (sniperShouldTrade prm true st ev now).2.processed = st.processed ∨
    (∃ d, ev = .newToken d ∧
      (sniperShouldTrade prm true st ev now).2.processed = st.processed ++ [d.mint]) := by
  cases ev with
  | newToken d =>
    rw [sniperShouldTrade]
    simp only [Bool.not_true, Bool.false_eq_true, if_false]
    split_ifs <;> simp
  | tokenTrade d => exact Or.inl rfl
  | other t => exact Or.inl rfl

lemma sniperAcceptCount_of_processed (prm : SniperParams) (m : String) :
    ∀ (evs : List (WebSocketEvent × ℤ)) (st : SniperState),
      m ∈ st.processed → sniperAcceptCount prm st evs m = 0 := by
  intro evs
  induction evs with
  | nil => intro st _; rfl
  | cons e rest ih =>
    intro st h
    obtain ⟨ev, now⟩ := e
    rw [sniperAcceptCount]
    have hnext : m ∈ (sniperShouldTrade prm true st ev now).2.processed := by
      rcases sniperShouldTrade_state prm st ev now with h2 | ⟨d, _, h2⟩
      · rw [h2]; exact h
      · rw [h2]; exact List.mem_append_left _ h
    rw [ih (sniperShouldTrade prm true st ev now).2 hnext]
    have hzero : ¬((sniperShouldTrade prm true st ev now).1 = true ∧
        newTokenMint ev = some m) := by
      rintro ⟨hacc, hm⟩
      cases ev with
      | newToken d =>
        rw [newTokenMint, Option.some.injEq] at hm
        have := (sniperShouldTrade_accept prm st d now hacc).1
        rw [hm] at this
        exact this h
      | tokenTrade d => simp [newTokenMint] at hm
      | other t => simp [newTokenMint] at hm
    rw [if_neg hzero]

/-- C8: across any sequence of invocations the sniper strategy accepts a
given mint at most once — the first `newToken` event for a mint passing
the processed / age / blocked-creator / blocked-phrase checks adds the
mint to the processed set at the moment of acceptance, every later
`newToken` event for a mint already in the processed set is refused with
the state unchanged, and events of other types never accept. -/
theorem c8_sniper_at_most_once (prm : SniperParams) :
    (∀ (st : SniperState) (evs : List (WebSocketEvent × ℤ)) (m : String),
      sniperAcceptCount prm st evs m ≤ 1) ∧
    (∀ (st : SniperState) (d : NewTokenData) (now : ℤ),
      (sniperShouldTrade prm true st (.newToken d) now).1 = true →
      d.mint ∉ st.processed ∧
      (sniperShouldTrade prm true st (.newToken d) now).2.processed
        = st.processed ++ [d.mint]) ∧
    (∀ (st : SniperState) (d : NewTokenData) (now : ℤ),
      d.mint ∈ st.processed →
      sniperShouldTrade prm true st (.newToken d) now = (false, st)) ∧
    (∀ (st : SniperState) (ev : WebSocketEvent) (now : ℤ),
      newTokenMint ev = none → sniperShouldTrade prm true st ev now = (false, st)) := by
  refine ⟨?_, sniperShouldTrade_accept prm, sniperShouldTrade_processed prm,
    sniperShouldTrade_not_newToken prm⟩
  intro st evs m
  induction evs generalizing st with
  | nil => exact Nat.zero_le 1
  | cons e rest ih =>
    obtain ⟨ev, now⟩ := e
    rw [sniperAcceptCount]
    by_cases hacc : (sniperShouldTrade prm true st ev now).1 = true ∧
        newTokenMint ev = some m
    · rw [if_pos hacc]
      obtain ⟨h1, hm⟩ := hacc
      cases ev with
      | newToken d =>
        rw [newTokenMint, Option.some.injEq] at hm
        have hst := (sniperShouldTrade_accept prm st d now h1).2
        have hmem : m ∈ (sniperShouldTrade prm true st (.newToken d) now).2.processed := by
          rw [hst, hm]
          exact List.mem_append_right _ (List.mem_singleton.mpr rfl)
        rw [sniperAcceptCount_of_processed prm m rest _ hmem]
      | tokenTrade d => simp [newTokenMint] at hm
      | other t => simp [newTokenMint] at hm
    · rw [if_neg hacc, Nat.zero_add]
      exact ih _

/-- C8 witness: two consecutive qualifying `newToken` events for the same
mint yield exactly one acceptance. -/
theorem c8_sniper_at_most_once_witness :
    sniperAcceptCount { } ⟨[]⟩
      [(.newToken ⟨"M", "Nice", "NT", 100, "creator"⟩, 100),
       (.newToken ⟨"M", "Nice", "NT", 100, "creator"⟩, 101)] "M" ≤ 1 :=
  (c8_sniper_at_most_once { }).1 ⟨[]⟩
    [(.newToken ⟨"M", "Nice", "NT", 100, "creator"⟩, 100),
     (.newToken ⟨"M", "Nice", "NT", 100, "creator"⟩, 101)] "M"

/-- A concrete trade event for mint `"A"` at price `0.5`, used by the C9
inputs. -/
def tradeEvA (ts : ℤ) : TokenTradeData :=
  { mint := "A", action := "sell", price := 1/2, amountSol := 0
    trader := "t", timestamp := ts }

/-- A concrete exit-strategy state whose rate limiter has just processed
mint `"A"`, used as a counterexample input. -/
def pmStateCex : PositionMgmtState :=
  { currentPrices := [], lastProcessedTime := [("A", 1000)], minProcessingIntervalMs := 10000 }

/-- C9 counterexample: an open position for `"A"` exists and the event
price `0.5` is at or below its stop-loss `0.9`, yet `shouldTrade` returns
`false` because the per-token rate limiter has processed `"A"` within the
last 10 seconds — the claimed "if and only if" omits the rate limiter. -/
theorem c9_counterexample :
    (pmShouldTrade true pmStateCex portfolioA (.tokenTrade (tradeEvA 1000)) 1000).1 = false ∧
    getOpenPositionForToken portfolioA "A" = some openPosA ∧
    (1/2 : ℚ) ≤ openPosA.stopLoss := by
  refine ⟨?_, rfl, by norm_num [openPosA]⟩
  norm_num [pmShouldTrade, shouldProcessToken, lookupA, pmStateCex, portfolioA,
    openPosA, getOpenPositionForToken, isOpenFor, List.filter, tradeEvA]

/-- C9 (amended): with the strategy enabled, a trade event fires the exit
strategy if and only if an open position exists for the mint, the
per-token rate limiter allows processing now (at least the configured
interval has elapsed since the token was last processed, missing entries
reading as 0), and the price has crossed the stop-loss (`price ≤
stopLoss`) or take-profit (`price ≥ takeProfit`) threshold; when it fires
and the wallet holds the token, `getTrade` produces the sell-100% (as a
percentage-of-holdings directive) proposal; with the strategy disabled it
never fires. -/
theorem c9_exit_strategy_iff (st : PositionMgmtState) (p : Portfolio)
    (d : TokenTradeData) (now : ℤ) :
    ((pmShouldTrade true st p (.tokenTrade d) now).1 = true ↔
      (∃ pos, getOpenPositionForToken p d.mint = some pos ∧
        st.minProcessingIntervalMs ≤ now - (lookupA st.lastProcessedTime d.mint).getD 0 ∧
        (d.price ≤ pos.stopLoss ∨ pos.takeProfit ≤ d.price))) ∧
    (∀ (cfg : BotConfig) (rs : RiskState) (now2 : ℤ) (balance : ℚ) (pos : Position),
      getOpenPositionForToken p d.mint = some pos →
      pmGetTrade cfg p rs now2 balance true (.tokenTrade d)
        = some { action := "sell", mint := d.mint, amount := .percentOfHoldings 100,
                 denominatedInSol := false, slippage := cfg.trading.defaultSlippage,
                 priorityFee := cfg.trading.defaultPriorityFee, pool := "pump",
                 skipPreflight := false }) ∧
    (pmShouldTrade false st p (.tokenTrade d) now).1 = false := by
  refine ⟨?_, ?_, rfl⟩
  · rw [pmShouldTrade]
    simp only [Bool.not_true, Bool.false_eq_true, if_false]
    rcases hpos : getOpenPositionForToken p d.mint with _ | pos
    · simp
    · have hopen := (getOpen_some_props p d.mint pos hpos).2
      by_cases hrl : now - (lookupA st.lastProcessedTime d.mint).getD 0
          < st.minProcessingIntervalMs
      · simp [shouldProcessToken, hrl, not_le.mpr hrl]
      · simp only [shouldProcessToken, hrl, if_neg, if_false]
        simp only [shouldExitPosition, hopen]
        by_cases hsl : d.price ≤ pos.stopLoss
        · simp [hsl, not_lt.mp hrl]
        · by_cases htp : pos.takeProfit ≤ d.price <;>
            simp [hsl, htp, not_lt.mp hrl]
  · intro cfg rs now2 balance pos hpos
    rw [pmGetTrade]
    simp [hpos, checkTrade_sell_eq]

/-- C9 witness: with a fresh rate limiter, an open position and a price at
or below the stop-loss, the strategy fires and produces the sell-100%
proposal. -/
theorem c9_exit_strategy_iff_witness :
    (pmShouldTrade true ⟨[], [], 10000⟩ portfolioA
        (.tokenTrade (tradeEvA 50000)) 50000).1 = true ∧
    pmGetTrade defaultConfig portfolioA ⟨0, 10⟩ 5 1 true (.tokenTrade (tradeEvA 50000))
      = some { action := "sell", mint := "A", amount := .percentOfHoldings 100,
               denominatedInSol := false, slippage := defaultConfig.trading.defaultSlippage,
               priorityFee := defaultConfig.trading.defaultPriorityFee, pool := "pump",
               skipPreflight := false } :=
  ⟨((c9_exit_strategy_iff ⟨[], [], 10000⟩ portfolioA (tradeEvA 50000) 50000).1).mpr
      ⟨openPosA, rfl, by norm_num [lookupA, tradeEvA], Or.inl (by norm_num [openPosA, tradeEvA])⟩,
   (c9_exit_strategy_iff ⟨[], [], 10000⟩ portfolioA (tradeEvA 50000) 50000).2.1
      defaultConfig ⟨0, 10⟩ 5 1 openPosA rfl⟩

/-! ## Association-list lemmas for the momentum strategy -/

lemma lookupA_setA_self {α : Type} (l : List (String × α)) (k : String) (v : α) :
    lookupA (setA l k v) k = some v := by
  induction l with
  | nil => simp [setA, lookupA]
  | cons kv rest ih =>
    obtain ⟨k0, v0⟩ := kv
    by_cases h : k0 = k
    · simp [setA, h, lookupA]
    · simp [setA, h, lookupA, ih]

lemma lookupA_setA_ne {α : Type} (l : List (String × α)) (k k2 : String) (v : α)
    (h : k2 ≠ k) : lookupA (setA l k v) k2 = lookupA l k2 := by
  have hkk : ¬ k = k2 := fun hc => h hc.symm
  induction l with
  | nil => simp [setA, lookupA, hkk]
  | cons kv rest ih =>
    obtain ⟨k0, v0⟩ := kv
    by_cases h0 : k0 = k
    · subst h0
      simp [setA, lookupA, hkk]
    · by_cases h2 : k0 = k2
      · simp [setA, h0, lookupA, h2, h]
      · simp [setA, h0, lookupA, h2, ih]

lemma lookupA_eq_none_of_not_mem {α : Type} (l : List (String × α)) (k : String)
    (h : k ∉ l.map Prod.fst) : lookupA l k = none := by
  induction l with
  | nil => rfl
  | cons kv rest ih =>
    obtain ⟨k0, v0⟩ := kv
    simp only [List.map_cons, List.mem_cons, not_or] at h
    rw [lookupA, if_neg (fun hc => h.1 hc.symm)]
    exact ih h.2

lemma lookupA_mem_keys {α : Type} (l : List (String × α)) (k : String) (v : α)
    (h : lookupA l k = some v) : k ∈ l.map Prod.fst := by
  induction l with
  | nil => simp [lookupA] at h
  | cons kv rest ih =>
    obtain ⟨k0, v0⟩ := kv
    by_cases h0 : k0 = k
    · simp [h0]
    · rw [lookupA, if_neg h0] at h
      simp [ih h]

lemma keys_filter_subset {α : Type} (q : String × α → Bool) (l : List (String × α))
    (k : String) (h : k ∈ (l.filter q).map Prod.fst) : k ∈ l.map Prod.fst := by
  induction l with
  | nil => simp at h
  | cons kv rest ih =>
    rw [List.filter_cons] at h
    rcases hq : q kv with _ | _
    · rw [hq] at h
      simp only [Bool.false_eq_true, if_false] at h
      simp only [List.map_cons, List.mem_cons]
      exact Or.inr (ih h)
    · rw [hq, if_pos rfl] at h
      simp only [List.map_cons, List.mem_cons] at h ⊢
      rcases h with h | h
      · exact Or.inl h
      · exact Or.inr (ih h)

lemma lookupA_filter_nodup {α : Type} (q : String × α → Bool) (l : List (String × α))
    (hnd : (l.map Prod.fst).Nodup) (k : String) :
    lookupA (l.filter q) k = none ∨ lookupA (l.filter q) k = lookupA l k := by
  induction l with
  | nil => exact Or.inl rfl
  | cons kv rest ih =>
    obtain ⟨k0, v0⟩ := kv
    simp only [List.map_cons, List.nodup_cons] at hnd
    by_cases h0 : k0 = k
    · subst h0
      rcases hq : q (k0, v0) with _ | _
      · rw [List.filter_cons, hq]
        simp only [if_false, Bool.false_eq_true]
        left
        apply lookupA_eq_none_of_not_mem
        intro hmem
        exact hnd.1 (keys_filter_subset q rest k0 hmem)
      · rw [List.filter_cons, hq, if_pos rfl]
        right
        simp [lookupA]
    · rcases hq : q (k0, v0) with _ | _
      · rw [List.filter_cons, hq]
        simp only [if_false, Bool.false_eq_true]
        rcases ih hnd.2 with hcase | hcase
        · exact Or.inl hcase
        · rw [hcase]
          right
          rw [lookupA, if_neg h0]
      · rw [List.filter_cons, hq, if_pos rfl]
        rw [lookupA, if_neg h0, lookupA, if_neg h0]
        exact ih hnd.2

lemma setA_keys_cases {α : Type} (k : String) (v : α) :
    ∀ (l : List (String × α)) (k2 : String),
      k2 ∈ (setA l k v).map Prod.fst → k2 ∈ l.map Prod.fst ∨ k2 = k := by
  intro l
  induction l with
  | nil =>
    intro k2 h
    rw [setA] at h
    simp at h
    exact Or.inr h
  | cons kv rest ih =>
    intro k2 h
    obtain ⟨k0, v0⟩ := kv
    by_cases h0 : k0 = k
    · subst h0
      rw [setA, if_pos rfl] at h
      simp only [List.map_cons, List.mem_cons] at h ⊢
      rcases h with h | h
      · exact Or.inr h
      · exact Or.inl (Or.inr h)
    · rw [setA, if_neg h0] at h
      simp only [List.map_cons, List.mem_cons] at h ⊢
      rcases h with h | h
      · exact Or.inl (Or.inl h)
      · rcases ih k2 h with h2 | h2
        · exact Or.inl (Or.inr h2)
        · exact Or.inr h2

lemma setA_keys_nodup {α : Type} (l : List (String × α)) (k : String) (v : α)
    (hnd : (l.map Prod.fst).Nodup) : ((setA l k v).map Prod.fst).Nodup := by
  induction l with
  | nil => simp [setA]
  | cons kv rest ih =>
    obtain ⟨k0, v0⟩ := kv
    simp only [List.map_cons, List.nodup_cons] at hnd
    by_cases h0 : k0 = k
    · subst h0
      rw [setA, if_pos rfl]
      simp only [List.map_cons, List.nodup_cons]
      exact hnd
    · rw [setA, if_neg h0]
      simp only [List.map_cons, List.nodup_cons]
      refine ⟨?_, ih hnd.2⟩
      intro hmem
      rcases setA_keys_cases k v rest k0 hmem with h2 | h2
      · exact hnd.1 h2
      · exact h0 h2

/-! ## Momentum-strategy state lemmas -/

/-- The token's stored cooldown stamp. -/
def StampedAt (s : MomentumState) (m : String) (t : ℤ) : Prop :=
  ∃ td, lookupA s.tokenData m = some td ∧ td.lastBuyAttempt = t

lemma updateTokenData_lookup_ne (s : MomentumState) (d : TokenTradeData)
    (m : String) (h : m ≠ d.mint) :
    lookupA (updateTokenData s d).tokenData m = lookupA s.tokenData m := by
  simp only [updateTokenData]
  exact lookupA_setA_ne _ _ _ _ h

lemma updateTokenData_lastBuy (s : MomentumState) (d : TokenTradeData)
    (td : TokenData) (h : lookupA s.tokenData d.mint = some td) :
    ∃ td2, lookupA (updateTokenData s d).tokenData d.mint = some td2 ∧
      td2.lastBuyAttempt = td.lastBuyAttempt := by
  simp only [updateTokenData, h]
  exact ⟨_, lookupA_setA_self _ _ _, rfl⟩

lemma updateTokenData_nodup (s : MomentumState) (d : TokenTradeData)
    (hnd : (s.tokenData.map Prod.fst).Nodup) :
    ((updateTokenData s d).tokenData.map Prod.fst).Nodup := by
  simp only [updateTokenData]
  exact setA_keys_nodup _ _ _ hnd

lemma cleanupOldData_lookup (s : MomentumState) (prm : MomentumParams)
    (now : ℤ) (m : String) (hnd : (s.tokenData.map Prod.fst).Nodup) :
    lookupA (cleanupOldData s prm now).tokenData m = none ∨
    lookupA (cleanupOldData s prm now).tokenData m = lookupA s.tokenData m := by
  rw [cleanupOldData]
  split_ifs with h
  · exact Or.inr rfl
  · exact lookupA_filter_nodup _ _ hnd m

lemma cleanupOldData_nodup (s : MomentumState) (prm : MomentumParams) (now : ℤ)
    (hnd : (s.tokenData.map Prod.fst).Nodup) :
    ((cleanupOldData s prm now).tokenData.map Prod.fst).Nodup := by
  rw [cleanupOldData]
  split_ifs with h
  · exact hnd
  · exact List.Nodup.sublist ((List.filter_sublist _).map Prod.fst) hnd

lemma checkMomentum_blocked (s : MomentumState) (prm : MomentumParams)
    (mint : String) (now : ℤ) (data : TokenData)
    (hd : lookupA s.tokenData mint = some data)
    (hcool : now - data.lastBuyAttempt < prm.cooldownPeriodMs) :
    checkMomentum s prm mint now = (false, s) := by
  simp only [checkMomentum, hd]
  rw [if_pos hcool]

/-- Every run of `checkMomentum` either rejects leaving the state
untouched, or accepts — in which case the cooldown had expired and the
only state change is stamping `lastBuyAttempt := now` on the token's
entry. -/
lemma checkMomentum_cases (s : MomentumState) (prm : MomentumParams)
    (mint : String) (now : ℤ) :
    checkMomentum s prm mint now = ((false : Bool), s) ∨
    (∃ data, lookupA s.tokenData mint = some data ∧
      prm.cooldownPeriodMs ≤ now - data.lastBuyAttempt ∧
      checkMomentum s prm mint now
        = (true, { s with tokenData := setA s.tokenData mint { data with lastBuyAttempt := now } })) := by
  rcases hd : lookupA s.tokenData mint with _ | data
  · left
    simp only [checkMomentum, hd]
  · simp only [checkMomentum, hd]
    split_ifs with h1 h2 h3
    · exact Or.inl rfl
    · exact Or.inl rfl
    · exact Or.inl rfl
    · split
      · split_ifs with h4
        · exact Or.inl rfl
        · exact Or.inr ⟨data, rfl, not_lt.mp h1, rfl⟩
      · exact Or.inl rfl

/-- Processing one event while a token's stamp is within the cooldown: the
keys stay duplicate-free, a trade event for that token is refused, and —
as long as the token's entry survives the sweep — its stamp is
unchanged. -/
lemma momentum_step (prm : MomentumParams) (s : MomentumState) (m : String)
    (t : ℤ) (ev : WebSocketEvent) (now : ℤ)
    (hnd : (s.tokenData.map Prod.fst).Nodup)
    (hst : StampedAt s m t)
    (hcool : now - t < prm.cooldownPeriodMs) :
    ((momentumShouldTrade prm true s ev now).2.tokenData.map Prod.fst).Nodup ∧
    (tradeMint ev = some m → (momentumShouldTrade prm true s ev now).1 = false) ∧
    ((lookupA (momentumShouldTrade prm true s ev now).2.tokenData m).isSome = true →
      StampedAt (momentumShouldTrade prm true s ev now).2 m t) := by
  obtain ⟨td, hd, hlb⟩ := hst
  cases ev with
  | newToken d => exact ⟨hnd, by simp [tradeMint], fun _ => ⟨td, hd, hlb⟩⟩
  | other tag => exact ⟨hnd, by simp [tradeMint], fun _ => ⟨td, hd, hlb⟩⟩
  | tokenTrade d =>
    have hred : momentumShouldTrade prm true s (.tokenTrade d) now
        = checkMomentum (cleanupOldData (updateTokenData s d) prm now) prm d.mint now := rfl
    rw [hred]
    set s1 := updateTokenData s d with hs1
    set s2 := cleanupOldData s1 prm now with hs2
    have hnd1 : (s1.tokenData.map Prod.fst).Nodup := updateTokenData_nodup s d hnd
    have hnd2 : (s2.tokenData.map Prod.fst).Nodup := cleanupOldData_nodup s1 prm now hnd1
    have hst1 : ∃ td1, lookupA s1.tokenData m = some td1 ∧ td1.lastBuyAttempt = t := by
      by_cases hm : m = d.mint
      · subst hm
        obtain ⟨td2, h2, h2b⟩ := updateTokenData_lastBuy s d td hd
        exact ⟨td2, h2, h2b.trans hlb⟩
      · exact ⟨td, (updateTokenData_lookup_ne s d m hm).trans hd, hlb⟩
    obtain ⟨td1, hd1, hlb1⟩ := hst1
    have hst2 : lookupA s2.tokenData m = none ∨
        (∃ td2, lookupA s2.tokenData m = some td2 ∧ td2.lastBuyAttempt = t) := by
      rcases cleanupOldData_lookup s1 prm now m hnd1 with hh | hh
      · exact Or.inl hh
      · exact Or.inr ⟨td1, hh.trans hd1, hlb1⟩
    rcases hst2 with hdead | ⟨td2, hd2, hlb2⟩
    · by_cases hm : m = d.mint
      · subst hm
        have hck : checkMomentum s2 prm d.mint now = (false, s2) := by
          simp only [checkMomentum, hdead]
        rw [hck]
        refine ⟨hnd2, fun _ => rfl, ?_⟩
        intro hsome
        rw [hdead] at hsome
        simp at hsome
      · rcases checkMomentum_cases s2 prm d.mint now with hck | ⟨data, hdata, hcd, hck⟩
        · rw [hck]
          refine ⟨hnd2, ?_, ?_⟩
          · intro hmm
            simp [tradeMint] at hmm
            exact absurd hmm.symm hm
          · intro hsome
            rw [hdead] at hsome
            simp at hsome
        · rw [hck]
          refine ⟨?_, ?_, ?_⟩
          · exact setA_keys_nodup _ _ _ hnd2
          · intro hmm
            simp [tradeMint] at hmm
            exact absurd hmm.symm hm
          · intro hsome
            simp only at hsome ⊢
            rw [lookupA_setA_ne _ _ _ _ hm] at hsome
            rw [hdead] at hsome
            simp at hsome
    · by_cases hm : m = d.mint
      · subst hm
        have hck : checkMomentum s2 prm d.mint now = (false, s2) :=
          checkMomentum_blocked s2 prm d.mint now td2 hd2 (by omega)
        rw [hck]
        exact ⟨hnd2, fun _ => rfl, fun _ => ⟨td2, hd2, hlb2⟩⟩
      · rcases checkMomentum_cases s2 prm d.mint now with hck | ⟨data, hdata, hcd, hck⟩
        · rw [hck]
          refine ⟨hnd2, ?_, fun _ => ⟨td2, hd2, hlb2⟩⟩
          intro hmm
          simp [tradeMint] at hmm
          exact absurd hmm.symm hm
        · rw [hck]
          refine ⟨setA_keys_nodup _ _ _ hnd2, ?_, ?_⟩
          · intro hmm
            simp [tradeMint] at hmm
            exact absurd hmm.symm hm
          · intro hsome
            refine ⟨td2, ?_, hlb2⟩
            simp only []
            rw [lookupA_setA_ne _ _ _ _ hm]
            exact hd2

/-- C7 (amended): on acceptance the momentum strategy stamps the token's
cooldown timestamp immediately inside `shouldTrade` — before any sizing,
risk-checking or execution — and for every subsequent trade event of that
token arriving within the configured cooldown of the stamp, `shouldTrade`
returns `false`, no matter how many qualifying trades arrive, provided the
token's momentum data is not purged by the periodic cleanup sweep during
the interval (the sweep can erase the stamp when the cooldown exceeds the
analysis window plus the one-hour retention buffer, allowing an early
re-trigger). -/
theorem c7_momentum_cooldown_spec (prm : MomentumParams) :
    (∀ (s : MomentumState) (d : TokenTradeData) (now : ℤ),
      (momentumShouldTrade prm true s (.tokenTrade d) now).1 = true →
      StampedAt (momentumShouldTrade prm true s (.tokenTrade d) now).2 d.mint now) ∧
    (∀ (s0 : MomentumState) (m : String) (t : ℤ) (evs : List (WebSocketEvent × ℤ)),
      (s0.tokenData.map Prod.fst).Nodup →
      StampedAt s0 m t →
      (∀ e ∈ evs, e.2 - t < prm.cooldownPeriodMs) →
      (∀ pr ∈ momentumRun prm s0 evs, (lookupA pr.2.tokenData m).isSome = true) →
      ∀ pr ∈ evs.zip (momentumRun prm s0 evs),
        tradeMint pr.1.1 = some m → pr.2.1 = false) := by
  constructor
  · intro s d now h
    have hred : momentumShouldTrade prm true s (.tokenTrade d) now
        = checkMomentum (cleanupOldData (updateTokenData s d) prm now) prm d.mint now := rfl
    rw [hred] at h ⊢
    rcases checkMomentum_cases (cleanupOldData (updateTokenData s d) prm now) prm d.mint now
      with hck | ⟨data, hdata, hcd, hck⟩
    · rw [hck] at h
      simp at h
    · rw [hck]
      exact ⟨{ data with lastBuyAttempt := now }, lookupA_setA_self _ _ _, rfl⟩
  · intro s0 m t evs
    induction evs generalizing s0 with
    | nil =>
      intro _ _ _ _ pr hpr
      simp at hpr
    | cons e rest ih =>
      obtain ⟨ev, now⟩ := e
      intro hnd hst hcool hsurv pr hpr hm
      have hrun : momentumRun prm s0 ((ev, now) :: rest)
          = momentumShouldTrade prm true s0 ev now
            :: momentumRun prm (momentumShouldTrade prm true s0 ev now).2 rest := rfl
      have hstep := momentum_step prm s0 m t ev now hnd hst
        (hcool (ev, now) (List.mem_cons_self _ _))
      rw [hrun] at hpr hsurv
      rw [List.zip_cons_cons] at hpr
      rcases List.mem_cons.mp hpr with hh | hh
      · rw [hh] at hm ⊢
        exact hstep.2.1 hm
      · have hsurvHead := hsurv (momentumShouldTrade prm true s0 ev now)
          (List.mem_cons_self _ _)
        exact ih (momentumShouldTrade prm true s0 ev now).2 hstep.1
          (hstep.2.2 hsurvHead)
          (fun e2 he2 => hcool e2 (List.mem_cons_of_mem _ he2))
          (fun pr2 hpr2 => hsurv pr2 (List.mem_cons_of_mem _ hpr2))
          pr hh hm

/-- The initial momentum state of the C7 witness: mint `"M"` stamped at
time 1000. -/
def wMomState : MomentumState :=
  { tokenData := [("M", { trades := [], lastBuyAttempt := 1000, symbol := "" })]
    lastCleanupTime := 0 }

/-- The trade event of the C7 witness: a trade of `"M"` at time 1500. -/
def wMomEv : WebSocketEvent :=
  .tokenTrade { mint := "M", action := "buy", price := 1, amountSol := 0
                trader := "t", timestamp := 1500 }

/-- C7 witness: with the default parameters, a trade of the stamped token
500 ms after the stamp (inside the 10-minute cooldown) is refused. -/
theorem c7_momentum_cooldown_spec_witness :
    (momentumShouldTrade { } true wMomState wMomEv 1500).1 = false := by
  have hrun : momentumRun { } wMomState [(wMomEv, 1500)]
      = [momentumShouldTrade { } true wMomState wMomEv 1500] := rfl
  have happ := (c7_momentum_cooldown_spec { }).2 wMomState "M" 1000 [(wMomEv, 1500)]
    (by simp [wMomState])
    ⟨{ trades := [], lastBuyAttempt := 1000, symbol := "" }, rfl, rfl⟩
    (by
      intro e he
      rw [List.mem_singleton] at he
      rw [he]
      decide)
    (by
      intro pr hpr
      rw [hrun, List.mem_singleton] at hpr
      rw [hpr]
      rfl)
  refine happ ((wMomEv, 1500), momentumShouldTrade { } true wMomState wMomEv 1500) ?_ rfl
  rw [hrun]
  exact List.mem_singleton.mpr rfl

/-- The C7 counterexample configuration: thresholds relaxed so a single
trade qualifies, and the cooldown configured to two hours — longer than
the analysis window (5 min) plus the sweep's one-hour retention buffer. -/
def cexPrm : MomentumParams :=
  { minTradeCount := 1, timeWindowMs := 300000, minVolumeThreshold := 0
    priceIncreaseThreshold := 0, cooldownPeriodMs := 7200000, defaultTradeAmount := 1/10 }

/-- A qualifying trade event of the C7 counterexample trace. -/
def cexEv (mint : String) (ts : ℤ) : WebSocketEvent :=
  .tokenTrade { mint := mint, action := "buy", price := 1, amountSol := 0
                trader := "t", timestamp := ts }

/-- The initial momentum state of the C7 counterexample (empty data, sweep
last run at construction time). -/
def cexS0 : MomentumState := { tokenData := [], lastCleanupTime := 100000000 }

/-- State after the first event of the C7 trace: a trade of `"M"` at
t = 100000000 that triggers momentum and stamps the cooldown. -/
def cexS1 : MomentumState :=
  (momentumShouldTrade cexPrm true cexS0 (cexEv "M" 100000000) 100000000).2

/-- State after the second event of the C7 trace: a trade of another mint
`"X"` 66⅔ minutes later, whose periodic sweep purges `"M"`'s momentum data
(all of `"M"`'s trades predate now − window − 1 h) and with it the
cooldown stamp. -/
def cexS2 : MomentumState :=
  (momentumShouldTrade cexPrm true cexS1 (cexEv "X" 104000000) 104000000).2

/-- C7 counterexample: momentum triggers for `"M"` and stamps the cooldown
at t = 100000000; after one event of another mint runs the sweep, the next
trade event of `"M"` — arriving 4 100 000 ms after the stamp, well inside
the configured 7 200 000 ms cooldown — makes `shouldTrade` return `true`
again, so a subsequent qualifying trade within the cooldown re-triggers. -/
theorem c7_counterexample :
    (momentumShouldTrade cexPrm true cexS0 (cexEv "M" 100000000) 100000000).1 = true ∧
    StampedAt cexS1 "M" 100000000 ∧
    tradeMint (cexEv "M" 104100000) = some "M" ∧
    ((104100000 : ℤ) - 100000000 < cexPrm.cooldownPeriodMs) ∧
    (momentumShouldTrade cexPrm true cexS2 (cexEv "M" 104100000) 104100000).1 = true := by
  have h1 : momentumShouldTrade cexPrm true cexS0 (cexEv "M" 100000000) 100000000
      = (true,
         { tokenData := [("M",
             { trades := [{ action := "buy", price := 1, amountSol := 0, trader := "t", timestamp := 100000000 }]
               lastBuyAttempt := 100000000, symbol := "" })]
           lastCleanupTime := 100000000 }) := by
    norm_num [momentumShouldTrade, updateTokenData, cleanupOldData, checkMomentum,
      lookupA, setA, sortByTimestampDesc, insertByTimestampDesc, cexPrm, cexEv, cexS0,
      cleanupIntervalMs]
  have hS1 : cexS1
      = { tokenData := [("M",
            { trades := [{ action := "buy", price := 1, amountSol := 0, trader := "t", timestamp := 100000000 }]
              lastBuyAttempt := 100000000, symbol := "" })]
          lastCleanupTime := 100000000 } := by
    rw [cexS1, h1]
  have hne1 : ¬("M" : String) = "X" := by decide
  have hne2 : ¬("X" : String) = "M" := by decide
  have h2 : momentumShouldTrade cexPrm true cexS1 (cexEv "X" 104000000) 104000000
      = (true,
         { tokenData := [("X",
             { trades := [{ action := "buy", price := 1, amountSol := 0, trader := "t", timestamp := 104000000 }]
               lastBuyAttempt := 104000000, symbol := "" })]
           lastCleanupTime := 104000000 }) := by
    rw [hS1]
    norm_num [momentumShouldTrade, updateTokenData, cleanupOldData, checkMomentum,
      lookupA, setA, sortByTimestampDesc, insertByTimestampDesc, cexPrm, cexEv,
      cleanupIntervalMs, hne1, hne2]
  have hS2 : cexS2
      = { tokenData := [("X",
            { trades := [{ action := "buy", price := 1, amountSol := 0, trader := "t", timestamp := 104000000 }]
              lastBuyAttempt := 104000000, symbol := "" })]
          lastCleanupTime := 104000000 } := by
    rw [cexS2, h2]
  refine ⟨by rw [h1], ?_, rfl, by decide, ?_⟩
  · rw [hS1]
    exact ⟨_, rfl, rfl⟩
  · rw [hS2]
    norm_num [momentumShouldTrade, updateTokenData, cleanupOldData, checkMomentum,
      lookupA, setA, sortByTimestampDesc, insertByTimestampDesc, cexPrm, cexEv,
      cleanupIntervalMs, hne1, hne2]
